import Mathlib

/-!
# Speech-to-text RAG solution: client script and relay server

A shallow embedding of `public/script.js` (browser side) and `src/server.js`
(Express relays), followed by the properties proved about them.

Conventions of the embedding.

* A JavaScript string is the list of its code units, written with `Char` (`Str`);
  string literals of the source are written `"...".toList`.
* Built-ins of the host whose tables are not part of the repository are taken as
  parameters: `toLowerCase` (full Unicode lower-casing of a string) and
  `canonicalize` (the per-character case folding a RegExp with the `i` flag
  applies).  Every theorem holds for all such functions.
* Page-level variables and the DOM nodes the script writes to are fields of an
  explicit state record; `localStorage` is a field too.
* A function that can throw returns `Except`.
-/

namespace SpeechRag

/-- JavaScript string, as the sequence of its code units. -/
abbrev Str := List Char

/-! ## String built-ins -/

/-- `String.prototype.includes`: does `t` occur in `s` at some index. -/
def includes (s t : Str) : Bool :=
  t.isPrefixOf s ||
    match s with
    | [] => false
    | _ :: r => includes r t

/-- `String.prototype.endsWith`. -/
def endsWith (s t : Str) : Bool := t.isSuffixOf s

/-- The code points `String.prototype.trim` strips: WhiteSpace and LineTerminator
of ECMA-262. -/
def isTrimmed (c : Char) : Bool :=
  let n := c.toNat
  n = 0x09 || n = 0x0A || n = 0x0B || n = 0x0C || n = 0x0D || n = 0x20 || n = 0xA0 ||
  n = 0x1680 || (0x2000 ≤ n && n ≤ 0x200A) || n = 0x2028 || n = 0x2029 || n = 0x202F ||
  n = 0x205F || n = 0x3000 || n = 0xFEFF

/-- `String.prototype.trim`. -/
def trim (s : Str) : Str :=
  ((s.dropWhile isTrimmed).reverse.dropWhile isTrimmed).reverse

/-- Truthiness of a string value: every string but the empty one. -/
def truthy (s : Str) : Bool := !s.isEmpty

/-! ## RegExp

The script builds two regular expressions, both in `highlightSearchInTranscript`:
the literal `/[.*+?^${}()|[\]\\]/g` that escapes the search term and
`new RegExp('(' + escaped + ')', 'gi')`.  The engine is modelled for the fragment
of the ECMA-262 pattern grammar (Annex B, no `u` flag) made of pattern characters,
`.`, `^`, `$`, identity escapes, character classes without ranges, capturing and
`(?:` groups, `|`, and the quantifiers `*`, `+`, `?` (greedy and lazy).  A pattern
that uses anything else is reported as `outsideFragment`, so that nothing is
claimed about it; a malformed pattern is a `syntaxError`, which is what
`new RegExp` throws.
-/

/-- Parsed pattern. -/
inductive Node where
  | empty
  | char (c : Char)
  | dot
  | lineStart
  | lineEnd
  | cls (negated : Bool) (members : List Char)
  | group (index : Nat) (body : Node)
  | seq (a b : Node)
  | alt (a b : Node)
  | rep (body : Node) (min : Nat) (max : Option Nat) (greedy : Bool)
deriving Repr, DecidableEq

/-- What compiling a pattern can raise. -/
inductive RegExpError where
  | syntaxError
  | outsideFragment
deriving Repr, DecidableEq

/-- Sequence of the terms of one alternative. -/
def mkSeq : List Node → Node
  | [] => .empty
  | t :: ts => .seq t (mkSeq ts)

/-- Disjunction of alternatives, the last one being `last`. -/
def mkAlt : List Node → Node → Node
  | [], last => last
  | a :: as, last => .alt a (mkAlt as last)

/-- ASCII letter or digit: after a backslash these start the class, control,
back-reference, hex and unicode escapes, none of which is in the fragment. -/
def isAlnum (c : Char) : Bool := c.isAlphanum

/-- Quantifier at the head of the input, if any: bounds, greediness, and the input
after it.  A `{` that is followed by a digit may start a braced quantifier and is
left to the caller. -/
def parseQuantifier (input : Str) : Option (Nat × Option Nat × Bool × Str) :=
  let lazy (r : Str) : Bool × Str :=
    match r with
    | '?' :: r1 => (false, r1)
    | _ => (true, r)
  match input with
  | '*' :: r => some (0, none, (lazy r).1, (lazy r).2)
  | '+' :: r => some (1, none, (lazy r).1, (lazy r).2)
  | '?' :: r => some (0, some 1, (lazy r).1, (lazy r).2)
  | _ => none

/-- A braced quantifier may start here. -/
def startsBrace (input : Str) : Bool :=
  match input with
  | '{' :: d :: _ => d.isDigit
  | _ => false

/-- Members of a character class up to the closing `]`; the input starts after the
`[` (and after `^` for a negated class). -/
def parseClassItems : Str → List Char → Except RegExpError (List Char × Str)
  | [], _ => .error .syntaxError
  | ']' :: r, acc => .ok (acc, r)
  | ['\\'], _ => .error .syntaxError
  | '\\' :: c :: r, acc =>
      if isAlnum c then .error .outsideFragment else parseClassItems r (acc ++ [c])
  | '-' :: r, acc =>
      match acc, r with
      | [], _ => parseClassItems r (acc ++ ['-'])
      | _, ']' :: _ => parseClassItems r (acc ++ ['-'])
      | _, _ => .error .outsideFragment
  | c :: r, acc => parseClassItems r (acc ++ [c])

/-- Character class; the input starts after the `[`. -/
def parseClass (input : Str) : Except RegExpError (Node × Str) :=
  match input with
  | '^' :: r =>
      match parseClassItems r [] with
      | .ok (ms, rest) => .ok (.cls true ms, rest)
      | .error e => .error e
  | _ =>
      match parseClassItems input [] with
      | .ok (ms, rest) => .ok (.cls false ms, rest)
      | .error e => .error e

/-- Applies the quantifier that follows an atom, if there is one. -/
def quantify (atom : Node) (input : Str) : Except RegExpError (Node × Str) :=
  if startsBrace input then .error .outsideFragment
  else
    match parseQuantifier input with
    | some (lo, hi, greedy, rest) => .ok (.rep atom lo hi greedy, rest)
    | none => .ok (atom, input)

/-- What the head of the input asks of the parser of a disjunction. -/
inductive Step where
  /-- `)`: the enclosing group, if any, ends here -/
  | close
  /-- `|`: the current alternative ends -/
  | bar
  /-- a whole term that contains no group, and the input after it -/
  | term (t : Node) (rest : Str)
  /-- `(` or `(?:`, and the input after it -/
  | openGroup (capturing : Bool) (rest : Str)
  | fail (e : RegExpError)
deriving Repr, DecidableEq

/-- Reads the head `c` of the input `c :: r`. -/
def nextStep (c : Char) (r : Str) : Step :=
  if c = ')' then .close
  else if c = '|' then .bar
  else if c = '*' ∨ c = '+' ∨ c = '?' then .fail .syntaxError
  else if c = '^' then .term .lineStart r
  else if c = '$' then .term .lineEnd r
  else if c = '(' then
    match r with
    | '?' :: ':' :: r1 => .openGroup false r1
    | '?' :: _ => .fail .outsideFragment
    | _ => .openGroup true r
  else if c = '[' then
    match parseClass r with
    | .error e => .fail e
    | .ok (atom, rest) =>
        match quantify atom rest with
        | .error e => .fail e
        | .ok (t, rest1) => .term t rest1
  else if c = '\\' then
    match r with
    | [] => .fail .syntaxError
    | e :: r1 =>
        if isAlnum e then .fail .outsideFragment
        else
          match quantify (.char e) r1 with
          | .error err => .fail err
          | .ok (t, rest1) => .term t rest1
  else if c = '{' ∧ startsBrace (c :: r) then .fail .outsideFragment
  else
    match quantify (if c = '.' then .dot else .char c) r with
    | .error e => .fail e
    | .ok (t, rest1) => .term t rest1

/-- Disjunction up to the end of the input or an unmatched `)`, which is left in
the input.  `n` counts the capturing groups opened so far, `alts` are the finished
alternatives and `cur` the terms of the current one.  Each call consumes input, so
a first argument above the length of the input is never used up. -/
def parseSeq : Nat → Str → Nat → List Node → List Node →
    Except RegExpError (Node × Str × Nat)
  | 0, _, _, _, _ => .error .outsideFragment
  | _ + 1, [], n, alts, cur => .ok (mkAlt alts (mkSeq cur), [], n)
  | fuel + 1, c :: r, n, alts, cur =>
      match nextStep c r with
      | .close => .ok (mkAlt alts (mkSeq cur), c :: r, n)
      | .bar => parseSeq fuel r n (alts ++ [mkSeq cur]) []
      | .fail e => .error e
      | .term t rest => parseSeq fuel rest n alts (cur ++ [t])
      | .openGroup capturing r1 =>
          match parseSeq fuel r1 (if capturing then n + 1 else n) [] [] with
          | .error e => .error e
          | .ok (body, ')' :: rest1, n2) =>
              match quantify (if capturing then .group (n + 1) body else body) rest1 with
              | .error e => .error e
              | .ok (t, rest2) => parseSeq fuel rest2 n2 alts (cur ++ [t])
          | .ok _ => .error .syntaxError

/-- Flags of a RegExp that matter here; both expressions of the script are global. -/
structure RegExp where
  root : Node
  groupCount : Nat
  ignoreCase : Bool
deriving Repr, DecidableEq

/-- `new RegExp(pattern, flags)`, with `ignoreCase` telling whether `flags` has `i`. -/
def RegExp.create (pattern : Str) (ignoreCase : Bool) : Except RegExpError RegExp :=
  match parseSeq (pattern.length + 1) pattern 0 [] [] with
  | .error e => .error e
  | .ok (root, [], n) => .ok ⟨root, n, ignoreCase⟩
  | .ok (_, _ :: _, _) => .error .syntaxError

/-- Matcher state: the input to the left of the current position, the input from it
on, and the text captured by each group closed so far. -/
structure MatchState where
  before : Str
  rest : Str
  captures : List (Nat × Str)
deriving Repr, DecidableEq

/-- Continuation of a matcher. -/
abbrev Cont := MatchState → Option MatchState

/-- LineTerminator code points, which `.` does not match. -/
def isLineTerminator (c : Char) : Bool :=
  c.toNat = 0x0A || c.toNat = 0x0D || c.toNat = 0x2028 || c.toNat = 0x2029

/-- Indices of the capturing groups inside a node. -/
def Node.groupIndices : Node → List Nat
  | .group i body => i :: body.groupIndices
  | .seq a b => a.groupIndices ++ b.groupIndices
  | .alt a b => a.groupIndices ++ b.groupIndices
  | .rep body _ _ _ => body.groupIndices
  | _ => []

/-- RepeatMatcher of ECMA-262: `m` is the matcher of the quantified atom and
`inner` the groups it contains, whose captures each iteration resets.  An iteration
past the minimum that consumes nothing is rejected. -/
def repeatMatcher (m : MatchState → Cont → Option MatchState) (inner : List Nat)
    (greedy : Bool) : Nat → Nat → Option Nat → MatchState → Cont → Option MatchState
  | 0, _, _, _, _ => none
  | fuel + 1, lo, hi, x, c =>
      if hi = some 0 then c x
      else
        let d : Cont := fun y =>
          if lo = 0 ∧ y.before.length = x.before.length then none
          else repeatMatcher m inner greedy fuel (lo - 1) (hi.map (· - 1)) y c
        let xr : MatchState :=
          { x with captures := x.captures.filter (fun p => !inner.contains p.1) }
        if lo ≠ 0 then m xr d
        else if greedy then
          match m xr d with
          | some z => some z
          | none => c x
        else
          match c x with
          | some z => some z
          | none => m xr d

/-- Backtracking matcher of a node, in continuation-passing style as in ECMA-262.
`canon` is the case folding applied to both sides of a character comparison: the
identity unless the expression has the `i` flag. -/
def Node.matcher (canon : Char → Char) : Node → MatchState → Cont → Option MatchState
  | .empty, x, c => c x
  | .char ch, x, c =>
      match x.rest with
      | a :: r =>
          if canon a = canon ch then c { x with before := x.before ++ [a], rest := r }
          else none
      | [] => none
  | .dot, x, c =>
      match x.rest with
      | a :: r =>
          if isLineTerminator a then none
          else c { x with before := x.before ++ [a], rest := r }
      | [] => none
  | .lineStart, x, c => if x.before = [] then c x else none
  | .lineEnd, x, c => if x.rest = [] then c x else none
  | .cls negated members, x, c =>
      match x.rest with
      | a :: r =>
          if (members.any fun m => canon m = canon a) ≠ negated then
            c { x with before := x.before ++ [a], rest := r }
          else none
      | [] => none
  | .group i body, x, c =>
      body.matcher canon x fun y =>
        c { y with
            captures := (i, y.before.drop x.before.length) ::
              y.captures.filter (fun p => p.1 ≠ i) }
  | .seq a b, x, c => a.matcher canon x fun y => b.matcher canon y c
  | .alt a b, x, c =>
      match a.matcher canon x c with
      | some z => some z
      | none => b.matcher canon x c
  | .rep body lo hi greedy, x, c =>
      repeatMatcher (body.matcher canon) body.groupIndices greedy
        (lo + x.rest.length + 2) lo hi x c

/-- One match attempt at the current position (the body of RegExpBuiltinExec for
one value of `lastIndex`). -/
def RegExp.matchAt (canonicalize : Char → Char) (re : RegExp) (before rest : Str) :
    Option MatchState :=
  re.root.matcher (if re.ignoreCase then canonicalize else id) ⟨before, rest, []⟩ some

/-- Decimal value of a digit character. -/
def digitValue (c : Char) : Nat := c.toNat - '0'.toNat

/-- Text of capture `i`, empty when the group did not take part in the match. -/
def captureText (caps : List (Nat × Str)) (i : Nat) : Str :=
  match caps.find? (fun p => p.1 = i) with
  | some p => p.2
  | none => []

/-- GetSubstitution of ECMA-262 for a replacement template without named groups:
`$$`, `$&`, the text before and after the match, and `$n` / `$nn` for the `m`
capturing groups of the expression. -/
def getSubstitution (matched before after : Str) (caps : List (Nat × Str)) (m : Nat) :
    Str → Str
  | [] => []
  | [c] => [c]
  | c :: d :: r =>
      if c ≠ '$' then c :: getSubstitution matched before after caps m (d :: r)
      else if d = '$' then '$' :: getSubstitution matched before after caps m r
      else if d = '&' then matched ++ getSubstitution matched before after caps m r
      else if d = Char.ofNat 96 then before ++ getSubstitution matched before after caps m r
      else if d = Char.ofNat 39 then after ++ getSubstitution matched before after caps m r
      else if d.isDigit then
        match r with
        | e :: r1 =>
            if e.isDigit ∧ 1 ≤ digitValue d * 10 + digitValue e ∧
                digitValue d * 10 + digitValue e ≤ m then
              captureText caps (digitValue d * 10 + digitValue e) ++
                getSubstitution matched before after caps m r1
            else if e.isDigit ∧ digitValue d * 10 + digitValue e = 0 then
              c :: d :: e :: getSubstitution matched before after caps m r1
            else if 1 ≤ digitValue d ∧ digitValue d ≤ m then
              captureText caps (digitValue d) ++
                getSubstitution matched before after caps m (e :: r1)
            else c :: d :: getSubstitution matched before after caps m (e :: r1)
        | [] =>
            if 1 ≤ digitValue d ∧ digitValue d ≤ m then captureText caps (digitValue d)
            else [c, d]
      else c :: getSubstitution matched before after caps m (d :: r)

/-- The loop of `String.prototype.replace` for a global RegExp: a match is tried
at every position from left to right; where one is found its expansion is emitted
and the scan resumes after it (one character further when it is empty); the
characters in between are copied. -/
def replaceLoop (canonicalize : Char → Char) (re : RegExp) (template : Str) :
    Nat → Str → Str → Str
  | 0, _, rest => rest
  | fuel + 1, before, rest =>
      match re.matchAt canonicalize before rest with
      | some y =>
          let matched := y.before.drop before.length
          let out := getSubstitution matched before y.rest y.captures re.groupCount template
          if matched.isEmpty then
            match rest with
            | [] => out
            | a :: r => out ++ a :: replaceLoop canonicalize re template fuel (before ++ [a]) r
          else out ++ replaceLoop canonicalize re template fuel y.before y.rest
      | none =>
          match rest with
          | [] => []
          | a :: r => a :: replaceLoop canonicalize re template fuel (before ++ [a]) r

/-- `input.replace(re, template)` for a RegExp with the `g` flag. -/
def replaceGlobal (canonicalize : Char → Char) (re : RegExp) (input template : Str) : Str :=
  replaceLoop canonicalize re template (input.length + 1) [] input

/-! ## Client state (`public/script.js`) -/

/-- Host built-ins the script relies on. -/
structure Host where
  /-- `String.prototype.toLowerCase` -/
  toLowerCase : Str → Str
  /-- Canonicalize of ECMA-262 for a RegExp with the `i` flag -/
  canonicalize : Char → Char

/-- Element of `fileHistory`, as built by `addToFileHistory`. -/
structure FileHistoryEntry where
  id : Nat
  name : Str
  transcript : Str
  timestamp : Str
deriving Repr, DecidableEq

/-- One `.file-item` row of the list; `searchMatch` is the `search-match` class. -/
structure FileItem where
  file : FileHistoryEntry
  searchMatch : Bool
deriving Repr, DecidableEq

/-- Content of the `.file-list` element after `filterFilesBySearch`. -/
inductive FileListView where
  /-- `<div class="no-files">No files uploaded yet</div>` -/
  | noFilesYet
  /-- `<div class="no-files">No matches found</div>` -/
  | noMatches
  | items (rows : List FileItem)
deriving Repr, DecidableEq

/-- The entries a list view shows. -/
def FileListView.entries : FileListView → List FileHistoryEntry
  | .items rows => rows.map (·.file)
  | _ => []

/-- Content of the `#transcriptContent` element. -/
inductive TranscriptView where
  | placeholder
  | text (s : Str)
  | html (s : Str)
deriving Repr, DecidableEq

/-- Entry of the conversation view. -/
structure ChatMessage where
  content : Str
  sender : Str
deriving Repr, DecidableEq

/-- Page-level variables of the script, the `audioFileHistory` record of
`localStorage` (held as the array whose JSON text it is, absent when the key is not
set), and the DOM nodes the modelled functions read or write.  Nodes that only
display (audio player, status banner, selected row) are left out. -/
structure AppState where
  currentTranscript : Str
  fileHistory : List FileHistoryEntry
  storage : Option (List FileHistoryEntry)
  searchInput : Str
  fileList : FileListView
  transcriptContent : TranscriptView
  chatInputDisabled : Bool
  chatInputValue : Str
  sendButtonDisabled : Bool
  chatMessages : List ChatMessage
deriving Repr, DecidableEq

/-- Is the entry kept by the filter of `filterFilesBySearch` for a non-empty term. -/
def fileMatches (h : Host) (searchTerm : Str) (file : FileHistoryEntry) : Bool :=
  includes (h.toLowerCase file.name) (h.toLowerCase searchTerm) ||
    includes (h.toLowerCase file.transcript) (h.toLowerCase searchTerm)

/-- `filterFilesBySearch(searchTerm)`. -/
def filterFilesBySearch (h : Host) (searchTerm : Str) (s : AppState) : AppState :=
  if s.fileHistory.length = 0 then { s with fileList := .noFilesYet }
  else
    let filteredFiles :=
      if truthy searchTerm then s.fileHistory.filter (fileMatches h searchTerm)
      else s.fileHistory
    if filteredFiles.length = 0 ∧ truthy searchTerm then { s with fileList := .noMatches }
    else
      { s with
        fileList := .items (filteredFiles.map fun file =>
          ⟨file, truthy searchTerm && fileMatches h searchTerm file⟩) }

/-- `updateFileHistoryDisplay()`. -/
def updateFileHistoryDisplay (h : Host) (s : AppState) : AppState :=
  filterFilesBySearch h (trim s.searchInput) s

/-- `saveFileHistory()`. -/
def saveFileHistory (s : AppState) : AppState :=
  { s with storage := some s.fileHistory }

/-- `addToFileHistory(filename, transcript)`; `now` is `Date.now()` and `timestamp`
is `new Date().toLocaleString()`. -/
def addToFileHistory (h : Host) (now : Nat) (timestamp : Str) (filename transcript : Str)
    (s : AppState) : AppState :=
  let fileItem : FileHistoryEntry := ⟨now, filename, transcript, timestamp⟩
  let unshifted := fileItem :: s.fileHistory
  let fileHistory := if unshifted.length > 10 then unshifted.take 10 else unshifted
  updateFileHistoryDisplay h (saveFileHistory { s with fileHistory := fileHistory })

/-- `enableChat()`. -/
def enableChat (s : AppState) : AppState :=
  { s with chatInputDisabled := false, sendButtonDisabled := !truthy (trim s.chatInputValue) }

/-- `disableChat()`. -/
def disableChat (s : AppState) : AppState :=
  { s with chatInputDisabled := true, chatInputValue := [], sendButtonDisabled := true }

/-- `loadFileHistory()`. -/
def loadFileHistory (h : Host) (s : AppState) : AppState :=
  match s.storage with
  | none => s
  | some stored =>
      let s1 := updateFileHistoryDisplay h { s with fileHistory := stored }
      if s1.fileHistory.length > 0 then enableChat s1 else s1

/-- `clearTranscript()`. -/
def clearTranscript (s : AppState) : AppState :=
  disableChat { s with currentTranscript := [], transcriptContent := .placeholder }

/-- The regular-expression literal `/[.*+?^${}()|[\]\\]/g`. -/
def escapePattern : Str := "[.*+?^$\x7b\x7d()|[\\]\\\\]".toList

/-- The replacement `'\\$&'` of the escaping step. -/
def escapeTemplate : Str := "\\$&".toList

/-- The replacement `'<span class="search-highlight">$1</span>'`. -/
def highlightTemplate : Str := "<span class=\"search-highlight\">$1</span>".toList

/-- `searchTerm.replace(/[.*+?^${}()|[\]\\]/g, '\\$&')`. -/
def escapeSearchTerm (h : Host) (searchTerm : Str) : Except RegExpError Str :=
  match RegExp.create escapePattern false with
  | .error e => .error e
  | .ok re => .ok (replaceGlobal h.canonicalize re searchTerm escapeTemplate)

/-- The string `highlightSearchInTranscript` assigns to `innerHTML` for a non-empty
term and transcript, or the error `new RegExp` throws. -/
def highlightedText (h : Host) (searchTerm currentTranscript : Str) : Except RegExpError Str :=
  match escapeSearchTerm h searchTerm with
  | .error e => .error e
  | .ok escaped =>
      match RegExp.create ("(".toList ++ escaped ++ ")".toList) true with
      | .error e => .error e
      | .ok regex => .ok (replaceGlobal h.canonicalize regex currentTranscript highlightTemplate)

/-- `highlightSearchInTranscript(searchTerm)`. -/
def highlightSearchInTranscript (h : Host) (searchTerm : Str) (s : AppState) :
    Except RegExpError AppState :=
  if !truthy s.currentTranscript then .ok s
  else if !truthy searchTerm then .ok { s with transcriptContent := .text s.currentTranscript }
  else
    match highlightedText h searchTerm s.currentTranscript with
    | .error e => .error e
    | .ok highlighted => .ok { s with transcriptContent := .html highlighted }

/-- `selectFileFromHistory(file)`; an exception raised by the highlighting leaves
the state as the statements before it made it. -/
def selectFileFromHistory (h : Host) (file : FileHistoryEntry) (s : AppState) : AppState :=
  let s1 := enableChat
    { s with currentTranscript := file.transcript, transcriptContent := .text file.transcript }
  if truthy (trim s1.searchInput) then
    match highlightSearchInTranscript h (trim s1.searchInput) s1 with
    | .ok s2 => s2
    | .error _ => s1
  else s1

/-- Operations on the client state named by the history invariant. -/
inductive Op where
  | addToFileHistory (now : Nat) (timestamp filename transcript : Str)
  | loadFileHistory
  | selectFileFromHistory (file : FileHistoryEntry)
  | clearTranscript
  | filterFilesBySearch (searchTerm : Str)
deriving Repr, DecidableEq

/-- Effect of one operation. -/
def Op.apply (h : Host) : Op → AppState → AppState
  | .addToFileHistory now ts filename transcript => SpeechRag.addToFileHistory h now ts filename transcript
  | .loadFileHistory => SpeechRag.loadFileHistory h
  | .selectFileFromHistory file => SpeechRag.selectFileFromHistory h file
  | .clearTranscript => SpeechRag.clearTranscript
  | .filterFilesBySearch term => SpeechRag.filterFilesBySearch h term

/-- States the page can be in: a first visit starts with an empty history and no
stored record; every later visit starts with an empty history (the script's
`let fileHistory = []`) and the record the earlier visits left in `localStorage`,
which only `saveFileHistory` writes. -/
inductive Reachable (h : Host) : AppState → Prop where
  | firstVisit (s : AppState) : s.fileHistory = [] → s.storage = none → Reachable h s
  | laterVisit (s t : AppState) :
      Reachable h s → t.fileHistory = [] → t.storage = s.storage → Reachable h t
  | step (op : Op) (s : AppState) : Reachable h s → Reachable h (op.apply h s)

/-! ### Chat input -/

/-- `Array.prototype.join(separator)` on an array of strings. -/
def arrayJoin (separator : Str) : List Str → Str
  | [] => []
  | [x] => x
  | x :: y :: r => x ++ separator ++ arrayJoin separator (y :: r)

/-- `addChatMessage(content, sender)`: one more `.chat-message` node in the
conversation view. -/
def addChatMessage (content sender : Str) (s : AppState) : AppState :=
  { s with chatMessages := s.chatMessages ++ [⟨content, sender⟩] }

/-- Body of the `fetch('/api/chat', ..)` request: `JSON.stringify({message, context})`. -/
structure ChatRequest where
  message : Str
  context : Str
deriving Repr, DecidableEq

/-- What comes back from the `fetch` of `sendMessage`: a response with `response.ok`
and its `result.response`, a response that is not ok with its `result.error` (absent
when `none`), or a rejected `fetch` / unreadable body. -/
inductive ChatReply where
  | ok (response : Str)
  | notOk (error : Option Str)
  | networkError
deriving Repr, DecidableEq

/-- Result of `sendMessage`: the page afterwards and the requests sent to
`/api/chat`, in order. -/
structure SendResult where
  state : AppState
  requests : List ChatRequest
deriving Repr, DecidableEq

/-- The template `File: ${file.name}\n${file.transcript}` of `sendMessage`. -/
def fileContext (file : FileHistoryEntry) : Str :=
  "File: ".toList ++ file.name ++ "\n".toList ++ file.transcript

/-- `sendMessage()`, with `reply` standing for the server: the reply the awaited
`fetch` delivers for a request. -/
def sendMessage (reply : ChatRequest → ChatReply) (s : AppState) : SendResult :=
  let message := trim s.chatInputValue
  let hasTranscripts := truthy s.currentTranscript || decide (s.fileHistory.length > 0)
  if !truthy message || !hasTranscripts then ⟨s, []⟩
  else
    let s1 : AppState :=
      { addChatMessage message "user".toList s with
        chatInputValue := [], sendButtonDisabled := true }
    let allTranscripts := arrayJoin "\n\n".toList (s.fileHistory.map fileContext)
    let contextToSend := if truthy allTranscripts then allTranscripts else s.currentTranscript
    let request : ChatRequest := ⟨message, contextToSend⟩
    match reply request with
    | .ok response => ⟨addChatMessage response "assistant".toList s1, [request]⟩
    | .notOk error =>
        let detail : Str :=
          match error with
          | some e => if truthy e then e else "Please try again.".toList
          | none => "Please try again.".toList
        ⟨addChatMessage ("Sorry, there was an error: ".toList ++ detail) "assistant".toList s1,
          [request]⟩
    | .networkError =>
        ⟨addChatMessage "Network error. Please try again.".toList "assistant".toList s1,
          [request]⟩

/-! ### Upload validation -/

/-- The fields of a browser `File` the script reads. -/
structure File where
  name : Str
  type : Str
  size : Nat
deriving Repr, DecidableEq

/-- What `handleFile` does, in order. -/
inductive Action where
  /-- `showUploadStatus(message, type)` -/
  | showUploadStatus (message type : Str)
  /-- `loadAudioFile(file)`: local object URL and file details, no request -/
  | loadAudioFile (file : File)
  /-- `uploadAndTranscribe(file)`: `fetch('/api/transcribe', {method: 'POST', ...})` -/
  | uploadAndTranscribe (file : File)
deriving Repr, DecidableEq

/-- `allowedTypes` of `handleFile` (and of the server's `fileFilter`). -/
def allowedTypes : List Str := ["audio/wav".toList, "audio/mpeg".toList, "audio/mp3".toList]

/-- `isValidType` of `handleFile`. -/
def isValidType (h : Host) (file : File) : Bool :=
  allowedTypes.contains file.type ||
    endsWith (h.toLowerCase file.name) ".wav".toList ||
    endsWith (h.toLowerCase file.name) ".mp3".toList

/-- `maxSize` of `handleFile`: `50 * 1024 * 1024`. -/
def maxSize : Nat := 50 * 1024 * 1024

/-- `handleFile(file)`. -/
def handleFile (h : Host) (file : File) : List Action :=
  if !isValidType h file then
    [.showUploadStatus "Please select a .wav or .mp3 audio file".toList "error".toList]
  else if file.size > maxSize then
    [.showUploadStatus "File size must be less than 50MB".toList "error".toList]
  else [.loadAudioFile file, .uploadAndTranscribe file]

/-! ## Relay server (`src/server.js`) -/

/-- JSON value: request and response bodies. -/
inductive Json where
  | null
  | bool (b : Bool)
  | num (n : Int)
  | str (s : Str)
  | arr (items : List Json)
  | obj (fields : List (Str × Json))

/-- Property read `v.key` on a value that is neither `undefined` nor `null`;
`none` is `undefined`.  Only objects have the properties the server reads
(`error`, `message`, `choices`, `content`). -/
def Json.get (v : Json) (key : Str) : Option Json :=
  match v with
  | .obj fields => (fields.find? (fun p => p.1 = key)).map (·.2)
  | _ => none

/-- Optional chaining `v?.key` on a possibly undefined value. -/
def optGet (v : Option Json) (key : Str) : Option Json :=
  match v with
  | none => none
  | some .null => none
  | some w => w.get key

/-- Truthiness of a possibly undefined value. -/
def Json.truthy : Option Json → Bool
  | none => false
  | some .null => false
  | some (.bool b) => b
  | some (.num n) => n ≠ 0
  | some (.str s) => !s.isEmpty
  | some (.arr _) => true
  | some (.obj _) => true

/-- Response written by `res.status(status).json(body)`. -/
structure HttpResponse where
  status : Nat
  body : Json

/-- The body `{ error: message }`. -/
def errorBody (message : Json) : Json := .obj [("error".toList, message)]

/-- `error.response` of a failed upstream call. -/
structure UpstreamResponse where
  status : Nat
  data : Json

/-- The value caught by a relay: `code` is `error.code`, `response` is
`error.response`; both are undefined for an exception that is not raised by the
HTTP client. -/
structure RequestError where
  message : Str
  code : Option Str
  response : Option UpstreamResponse

/-- `req.file` as multer sets it. -/
structure UploadedFile where
  path : Str
  originalname : Str
  mimetype : Str
  size : Nat
deriving Repr, DecidableEq

/-- Result of a relay: the response, the files left on disk, and the requests sent
upstream, in order. -/
structure Outcome (Req : Type) where
  response : HttpResponse
  disk : List Str
  calls : List Req

/-- `fs.unlinkSync(path)`: removes the file, or throws `ENOENT` when there is none. -/
def unlinkSync (disk : List Str) (path : Str) : Except RequestError (List Str) :=
  if disk.contains path then .ok (disk.filter (· ≠ path))
  else .error ⟨"ENOENT: no such file or directory".toList, some "ENOENT".toList, none⟩

/-- The `catch` block of `/api/transcribe`, for a request that carries a file. -/
def transcribeCatch (file : UploadedFile) (disk : List Str) (error : RequestError) :
    HttpResponse × List Str :=
  let disk1 := if disk.contains file.path then disk.filter (· ≠ file.path) else disk
  if error.code = some "ECONNABORTED".toList then
    (⟨408, errorBody (.str "Request timeout. Please try with a smaller file.".toList)⟩, disk1)
  else
    match error.response with
    | some r =>
        let message := optGet (optGet (some r.data) "error".toList) "message".toList
        (⟨r.status, errorBody
            (if Json.truthy message then message.getD .null
             else .str "Transcription failed".toList)⟩, disk1)
    | none =>
        (⟨500, errorBody (.str "Internal server error during transcription".toList)⟩, disk1)

/-- Handler of `POST /api/transcribe`, after multer.  `upstream path` is the
outcome of the `axios.post` that streams the file at `path` to the transcription
endpoint: the response data, or the error thrown. -/
def transcribeHandler (upstream : Str → Except RequestError Json)
    (file : Option UploadedFile) (disk : List Str) : Outcome Str :=
  match file with
  | none => ⟨⟨400, errorBody (.str "No audio file uploaded".toList)⟩, disk, []⟩
  | some f =>
      match upstream f.path with
      | .error e =>
          let r := transcribeCatch f disk e
          ⟨r.1, r.2, [f.path]⟩
      | .ok data =>
          match unlinkSync disk f.path with
          | .error e =>
              let r := transcribeCatch f disk e
              ⟨r.1, r.2, [f.path]⟩
          | .ok disk1 =>
              ⟨⟨200, .obj [("transcription".toList, data),
                  ("filename".toList, .str f.originalname),
                  ("mock".toList, .bool false)]⟩, disk1, [f.path]⟩

/-- Body of `POST /api/chat` after `express.json()`, with fields of the types the
interface declares; `none` is an absent field. -/
structure ChatBody where
  message : Option Str
  context : Option Str
deriving Repr, DecidableEq

/-- Truthiness of an optional string field. -/
def optTruthy : Option Str → Bool
  | none => false
  | some s => truthy s

/-- Element of `chatData.messages`. -/
structure Message where
  role : Str
  content : Str
deriving Repr, DecidableEq

/-- The `chatData` object sent to the chat-completion endpoint. -/
structure ChatData where
  messages : List Message
  max_tokens : Nat
  temperature : ℚ
deriving Repr, DecidableEq

/-- System prompt used when no context is given. -/
def noContextPrompt : Str :=
  ("You are a helpful AI assistant. The user has not provided any transcribed audio " ++
   "content yet. Please ask them to upload and transcribe an audio file first before " ++
   "asking questions.").toList

/-- Text of the system prompt before the context. -/
def contextPromptHead : Str :=
  ("You are a helpful AI assistant. The user has provided an audio transcription, and " ++
   "you should answer questions about it. Here is the transcribed content:\n\n\"").toList

/-- Text of the system prompt after the context. -/
def contextPromptTail : Str :=
  ("\"\n\nPlease answer the user\x27s questions based on this transcribed content. If the " ++
   "question is not related to the transcription, politely mention that you\x27re " ++
   "designed to help with questions about the transcribed audio content.").toList

/-- `systemPrompt` of the chat relay. -/
def systemPrompt (context : Option Str) : Str :=
  match context with
  | some c => if truthy c then contextPromptHead ++ c ++ contextPromptTail else noContextPrompt
  | none => noContextPrompt

/-- The `catch` block of `/api/chat`. -/
def chatCatch (error : RequestError) : HttpResponse :=
  if error.code = some "ECONNABORTED".toList then
    ⟨408, errorBody (.str "Chat request timeout. Please try again.".toList)⟩
  else
    match error.response with
    | some r =>
        let message := optGet (optGet (some r.data) "error".toList) "message".toList
        ⟨r.status, errorBody
          (if Json.truthy message then message.getD .null
           else .str "Chat service error".toList)⟩
    | none => ⟨500, errorBody (.str "Internal server error during chat".toList)⟩

/-- Plain property read `v.key`, which throws a `TypeError` on `undefined` and
`null`. -/
def mustGet (v : Option Json) (key : Str) : Except RequestError (Option Json) :=
  match v with
  | none => .error ⟨"Cannot read properties of undefined".toList, none, none⟩
  | some .null => .error ⟨"Cannot read properties of null".toList, none, none⟩
  | some w => .ok (w.get key)

/-- Index read `v[0]`, throwing like `mustGet`. -/
def mustFirst (v : Option Json) : Except RequestError (Option Json) :=
  match v with
  | none => .error ⟨"Cannot read properties of undefined".toList, none, none⟩
  | some .null => .error ⟨"Cannot read properties of null".toList, none, none⟩
  | some (.arr items) => .ok items.head?
  | some (.str s) => .ok (s.head?.map fun c => .str [c])
  | some w => .ok (w.get "0".toList)

/-- `response.data.choices[0].message.content`. -/
def chatContent (data : Json) : Except RequestError (Option Json) :=
  match mustGet (some data) "choices".toList with
  | .error e => .error e
  | .ok choices =>
      match mustFirst choices with
      | .error e => .error e
      | .ok first =>
          match mustGet first "message".toList with
          | .error e => .error e
          | .ok message => mustGet message "content".toList

/-- Handler of `POST /api/chat`.  `upstream chatData` is the outcome of the
`axios.post` to the chat-completion endpoint. -/
def chatHandler (upstream : ChatData → Except RequestError Json) (body : ChatBody) :
    Outcome ChatData :=
  match body.message with
  | none => ⟨⟨400, errorBody (.str "No message provided".toList)⟩, [], []⟩
  | some message =>
      if !truthy message then ⟨⟨400, errorBody (.str "No message provided".toList)⟩, [], []⟩
      else
        let chatData : ChatData :=
          { messages := [⟨"system".toList, systemPrompt body.context⟩, ⟨"user".toList, message⟩]
            max_tokens := 1000
            temperature := 0.7 }
        match upstream chatData with
        | .error e => ⟨chatCatch e, [], [chatData]⟩
        | .ok data =>
            match chatContent data with
            | .error e => ⟨chatCatch e, [], [chatData]⟩
            | .ok chatResponse =>
                ⟨⟨200, .obj ((match chatResponse with
                    | some v => [("response".toList, v)]
                    | none => []) ++ [("mock".toList, .bool false)])⟩, [], [chatData]⟩

/-! ### Upload middleware -/

/-- The file part of a multipart request, as multer hands it to `fileFilter`, and its
length in bytes. -/
structure IncomingFile where
  originalname : Str
  mimetype : Str
  size : Nat
deriving Repr, DecidableEq

/-- Error passed to `next`: a `multer.MulterError` with its code, or any other
`Error`. -/
inductive MiddlewareError where
  | multerError (code message : Str)
  | error (message : Str)
deriving Repr, DecidableEq

/-- `fileFilter`: `cb(null, true)` is `ok true`, `cb(new Error(..), false)` is the
error. -/
def fileFilter (h : Host) (file : IncomingFile) : Except MiddlewareError Bool :=
  if allowedTypes.contains file.mimetype ||
      endsWith (h.toLowerCase file.originalname) ".wav".toList ||
      endsWith (h.toLowerCase file.originalname) ".mp3".toList then .ok true
  else .error (.error "Only .wav and .mp3 files are allowed".toList)

/-- `limits.fileSize` of the multer configuration: `50 * 1024 * 1024`. -/
def fileSizeLimit : Nat := 50 * 1024 * 1024

/-- `upload.single('audio')` with the configured disk storage, filter and limit,
following multer's documentation: the filter runs first and its error goes to
`next`; an accepted file is written to `uploads/<Date.now()>-<originalname>`; a file
longer than the limit raises `MulterError('LIMIT_FILE_SIZE')` and what was written
of it is removed; a request without a file part leaves `req.file` undefined. -/
def uploadSingle (h : Host) (now : Nat) (part : Option IncomingFile) (disk : List Str) :
    Except MiddlewareError (Option UploadedFile × List Str) :=
  match part with
  | none => .ok (none, disk)
  | some file =>
      match fileFilter h file with
      | .error e => .error e
      | .ok false => .ok (none, disk)
      | .ok true =>
          if file.size > fileSizeLimit then
            .error (.multerError "LIMIT_FILE_SIZE".toList "File too large".toList)
          else
            let path := "uploads/".toList ++ (Nat.repr now).toList ++ "-".toList ++ file.originalname
            .ok (some ⟨path, file.originalname, file.mimetype, file.size⟩, path :: disk)

/-- The error-handling middleware registered after the routes. -/
def errorMiddleware (error : MiddlewareError) : HttpResponse :=
  match error with
  | .multerError code message =>
      if code = "LIMIT_FILE_SIZE".toList then
        ⟨400, errorBody (.str "File too large. Maximum size is 50MB.".toList)⟩
      else ⟨500, errorBody (.str message)⟩
  | .error message => ⟨500, errorBody (.str message)⟩

/-- The route `POST /api/transcribe`: multer, then the handler, with errors of the
middleware going to the error handler. -/
def postTranscribe (h : Host) (now : Nat) (upstream : Str → Except RequestError Json)
    (part : Option IncomingFile) (disk : List Str) : Outcome Str :=
  match uploadSingle h now part disk with
  | .error e => ⟨errorMiddleware e, disk, []⟩
  | .ok (file, disk1) => transcribeHandler upstream file disk1

/-- Host used to evaluate the definitions on concrete inputs: ASCII case mapping. -/
def asciiHost : Host := ⟨fun s => s.map Char.toLower, Char.toUpper⟩

/-! ## Specification-side definitions and inputs used for evaluation -/

/-- The test the filter applies, in the words of the amended C3: the lower-cased
term is a contiguous part of the lower-cased text. -/
def OccursLowerCased (h : Host) (term text : Str) : Prop :=
  h.toLowerCase term <:+: h.toLowerCase text

instance (h : Host) (term text : Str) : Decidable (OccursLowerCased h term text) :=
  inferInstanceAs (Decidable (_ <:+: _))

/-- Spec wording, "contains the term as a case-insensitive substring": some
contiguous part of the text has the characters of the term once the case of each
character is folded by `fold`.  It does not refer to `toLowerCase`. -/
def ContainsIgnoringCase (fold : Char → Char) (term text : Str) : Prop :=
  ∃ u, u <:+: text ∧ u.map fold = term.map fold

instance (fold : Char → Char) (term text : Str) :
    Decidable (ContainsIgnoringCase fold term text) :=
  decidable_of_iff (term.map fold <:+: text.map fold) (by
    constructor
    · rintro ⟨p, q, hpq⟩
      obtain ⟨l₁, l₂, h1, h2, _⟩ := List.map_eq_append_iff.mp hpq.symm
      obtain ⟨l₃, l₄, h4, _, h6⟩ := List.map_eq_append_iff.mp h2
      exact ⟨l₄, ⟨l₃, l₂, by rw [h1, h4]⟩, h6⟩
    · rintro ⟨u, hu, hmap⟩
      rw [← hmap]
      exact hu.map fold)

/-- Cased letters among ASCII and the basic Greek letters U+0391..U+03A9 and
U+03B1..U+03C9. -/
def isCased (c : Char) : Bool :=
  c.isAlpha || (0x391 ≤ c.toNat && c.toNat ≤ 0x3A9 && c.toNat ≠ 0x3A2) ||
    (0x3B1 ≤ c.toNat && c.toNat ≤ 0x3C9)

/-- Case-ignorable characters of ASCII: apostrophe, full stop, colon, circumflex and
grave accent. -/
def isCaseIgnorable (c : Char) : Bool :=
  c.toNat = 0x27 || c.toNat = 0x2E || c.toNat = 0x3A || c.toNat = 0x5E || c.toNat = 0x60

/-- The nearest character that is not case-ignorable is a cased letter. -/
def nextIsCased : Str → Bool
  | [] => false
  | c :: r => if isCaseIgnorable c then nextIsCased r else isCased c

/-- Lower-case mapping of one character outside the Final_Sigma context: ASCII
capitals and the Greek capitals move to their small letters. -/
def lowerChar (c : Char) : Char :=
  if 0x391 ≤ c.toNat ∧ c.toNat ≤ 0x3A9 ∧ c.toNat ≠ 0x3A2 then Char.ofNat (c.toNat + 0x20)
  else c.toLower

/-- `String.prototype.toLowerCase` on strings of ASCII and basic Greek letters, as
ECMA-262 prescribes it: the mappings of UnicodeData and the locale-insensitive ones of
SpecialCasing, among them Final_Sigma: a capital sigma that follows a cased letter
(case-ignorable characters skipped) and is not followed by one becomes the final
small sigma U+03C2 and not U+03C3.  `before` is the text already read, last
character first. -/
def lowerFrom : Str → Str → Str
  | _, [] => []
  | before, c :: r =>
      (if c.toNat = 0x3A3 then
          if nextIsCased before && !nextIsCased r then Char.ofNat 0x3C2 else Char.ofNat 0x3C3
        else lowerChar c) :: lowerFrom (c :: before) r

/-- Host whose `toLowerCase` applies the Final_Sigma rule. -/
def sigmaHost : Host := ⟨lowerFrom [], Char.toUpper⟩

/-- The page before anything was uploaded. -/
def emptyState : AppState :=
  ⟨[], [], none, [], .noFilesYet, .placeholder, true, [], true, []⟩

/-- The page after `n` successive transcriptions were added to the history. -/
def afterAdds : Nat → AppState
  | 0 => emptyState
  | n + 1 => addToFileHistory asciiHost n "now".toList "clip.mp3".toList "hello".toList (afterAdds n)

/-- History of one entry, for evaluation. -/
def oneFileState : AppState :=
  { emptyState with
    fileHistory := [⟨1, "Meeting.mp3".toList, "Hello world".toList, "now".toList⟩] }

/-- An upstream failure with an error response that carries no message. -/
def upstream503 : RequestError :=
  ⟨"Request failed with status code 503".toList, some "ERR_BAD_RESPONSE".toList,
    some ⟨503, .obj []⟩⟩

/-- An upstream failure whose error response carries a message. -/
def upstream401 : RequestError :=
  ⟨"Request failed with status code 401".toList, some "ERR_BAD_REQUEST".toList,
    some ⟨401, .obj [("error".toList, .obj [("message".toList, .str "Access denied".toList)])]⟩⟩

/-- A stored upload, for evaluation. -/
def sampleUpload : UploadedFile :=
  ⟨"uploads/1-a.wav".toList, "a.wav".toList, "audio/wav".toList, 2048⟩

/-- The characters the escaping step protects. -/
def specialChars : List Char := ".*+?^$\x7b\x7d()|[]\\".toList

/-- Spec wording, "escape regex-special characters": a backslash before each
special character, everything else unchanged. -/
def escapeLiteral : Str → Str
  | [] => []
  | c :: r => if c ∈ specialChars then '\\' :: c :: escapeLiteral r else c :: escapeLiteral r

/-- The term occurs at the start of `text` when case is ignored: the first
`|term|` characters of `text` fold to the characters of the folded term. -/
def occursAt (canon : Char → Char) (term text : Str) : Bool :=
  decide (term.length ≤ text.length ∧ (text.take term.length).map canon = term.map canon)

/-- Opening tag of the highlight marker. -/
def markOpen : Str := "<span class=\"search-highlight\">".toList

/-- Closing tag of the highlight marker. -/
def markClose : Str := "</span>".toList

/-- Left-to-right scan that wraps every occurrence of the term (case ignored) in
the marker and copies every other character; `n` bounds the number of steps. -/
def wrapFrom (canon : Char → Char) (term : Str) : Nat → Str → Str
  | 0, text => text
  | _ + 1, [] => []
  | n + 1, a :: r =>
      if occursAt canon term (a :: r) then
        markOpen ++ (a :: r).take term.length ++ markClose ++
          wrapFrom canon term n ((a :: r).drop term.length)
      else a :: wrapFrom canon term n r

/-- Spec wording, "wraps each case-insensitive occurrence of the search term with a
visual marker": the scan over the whole text. -/
def wrapOccurrences (canon : Char → Char) (term text : Str) : Str :=
  wrapFrom canon term text.length text

/-- A piece of the transcript, marked when it is an occurrence of the term. -/
def renderPiece (p : Bool × Str) : Str :=
  if p.1 then markOpen ++ p.2 ++ markClose else p.2

/-- Page with a transcript loaded, for evaluation. -/
def transcriptState : AppState :=
  { emptyState with currentTranscript := "xx A.B*C axbbc".toList }

/-- Spec wording, "the concatenation of ALL history entries (formatted as
`File: name\n<transcript>`, blank-line separated)". -/
def historyContext (history : List FileHistoryEntry) : Str :=
  "\n\n".toList.intercalate
    (history.map fun file => "File: ".toList ++ file.name ++ "\n".toList ++ file.transcript)

/-- An upstream call that ran into the 30 s timeout. -/
def upstreamTimeout : RequestError :=
  ⟨"timeout of 30000ms exceeded".toList, some "ECONNABORTED".toList, none⟩

/-- An upstream call that failed without a response. -/
def upstreamReset : RequestError :=
  ⟨"socket hang up".toList, some "ECONNRESET".toList, none⟩

/-- Page with one file in the history and a question typed. -/
def askingState : AppState :=
  { oneFileState with chatInputValue := "What was discussed?".toList }

/-- Page without any transcript and a question typed. -/
def askingTooEarly : AppState :=
  { emptyState with chatInputValue := "What was discussed?".toList }

/-- History of one entry with a Greek name, for evaluation. -/
def sigmaState : AppState :=
  { emptyState with
    fileHistory := [⟨1, "ΑΣΑ.mp3".toList, "Hello world".toList, "now".toList⟩] }

/-! ## Properties -/

/-! ### History store -/

theorem includes_iff_isInfix (s t : Str) : includes s t = true ↔ t <:+: s := by
  induction s with
  | nil =>
      unfold includes
      simp [List.isPrefixOf_iff_prefix]
  | cons a r ih =>
      unfold includes
      simp only [Bool.or_eq_true, List.isPrefixOf_iff_prefix, ih]
      constructor
      · rintro (hp | hi)
        · exact hp.isInfix
        · exact hi.trans (List.suffix_cons a r).isInfix
      · intro hi
        rcases List.infix_cons_iff.mp hi with hp | hi
        · exact Or.inl hp
        · exact Or.inr hi

theorem fileMatches_iff (h : Host) (term : Str) (file : FileHistoryEntry) :
    fileMatches h term file = true ↔
      OccursLowerCased h term file.name ∨ OccursLowerCased h term file.transcript := by
  simp [fileMatches, OccursLowerCased, includes_iff_isInfix]

/-- Where lower-casing maps the term and the text character by character, the test
of the filter is containment of the term ignoring case. -/
theorem occursLowerCased_charwise (h : Host) (fold : Char → Char) (term text : Str)
    (hterm : h.toLowerCase term = term.map fold)
    (htext : h.toLowerCase text = text.map fold) :
    OccursLowerCased h term text ↔ ContainsIgnoringCase fold term text := by
  unfold OccursLowerCased ContainsIgnoringCase
  rw [hterm, htext]
  constructor
  · rintro ⟨p, q, hpq⟩
    obtain ⟨l₁, l₂, h1, h2, _⟩ := List.map_eq_append_iff.mp hpq.symm
    obtain ⟨l₃, l₄, h4, _, h6⟩ := List.map_eq_append_iff.mp h2
    exact ⟨l₄, ⟨l₃, l₂, by rw [h1, h4]⟩, h6⟩
  · rintro ⟨u, hu, hmap⟩
    rw [← hmap]
    exact hu.map fold

@[simp] theorem filterFilesBySearch_fileHistory (h : Host) (term : Str) (s : AppState) :
    (filterFilesBySearch h term s).fileHistory = s.fileHistory := by
  simp only [filterFilesBySearch]
  split_ifs <;> rfl

@[simp] theorem filterFilesBySearch_storage (h : Host) (term : Str) (s : AppState) :
    (filterFilesBySearch h term s).storage = s.storage := by
  simp only [filterFilesBySearch]
  split_ifs <;> rfl

@[simp] theorem highlight_fileHistory (h : Host) (term : Str) (s t : AppState)
    (ht : highlightSearchInTranscript h term s = .ok t) :
    t.fileHistory = s.fileHistory ∧ t.storage = s.storage := by
  unfold highlightSearchInTranscript at ht
  split_ifs at ht
  · cases ht; exact ⟨rfl, rfl⟩
  · cases ht; exact ⟨rfl, rfl⟩
  · split at ht
    · cases ht
    · cases ht; exact ⟨rfl, rfl⟩

theorem selectFileFromHistory_keeps (h : Host) (file : FileHistoryEntry) (s : AppState) :
    (selectFileFromHistory h file s).fileHistory = s.fileHistory ∧
      (selectFileFromHistory h file s).storage = s.storage := by
  unfold selectFileFromHistory
  simp only
  split_ifs
  · split
    · next s2 h2 =>
        have := highlight_fileHistory h _ _ _ h2
        simpa [enableChat] using this
    · exact ⟨rfl, rfl⟩
  · exact ⟨rfl, rfl⟩

theorem addToFileHistory_fileHistory (h : Host) (now : Nat) (ts fn tr : Str) (s : AppState) :
    (addToFileHistory h now ts fn tr s).fileHistory =
      (⟨now, fn, tr, ts⟩ : FileHistoryEntry) :: s.fileHistory.take 9 := by
  simp only [addToFileHistory, updateFileHistoryDisplay, saveFileHistory,
    filterFilesBySearch_fileHistory]
  split_ifs with hlen
  · simp
  · simp only [List.length_cons, gt_iff_lt, not_lt] at hlen
    rw [List.take_of_length_le (by omega)]

theorem addToFileHistory_storage (h : Host) (now : Nat) (ts fn tr : Str) (s : AppState) :
    (addToFileHistory h now ts fn tr s).storage =
      some ((⟨now, fn, tr, ts⟩ : FileHistoryEntry) :: s.fileHistory.take 9) := by
  simp only [addToFileHistory, updateFileHistoryDisplay, saveFileHistory,
    filterFilesBySearch_storage]
  split_ifs with hlen
  · simp
  · simp only [List.length_cons, gt_iff_lt, not_lt] at hlen
    rw [List.take_of_length_le (by omega)]

theorem loadFileHistory_cases (h : Host) (s : AppState) :
    ((loadFileHistory h s).fileHistory = s.fileHistory ∨
        s.storage = some (loadFileHistory h s).fileHistory) ∧
      (loadFileHistory h s).storage = s.storage := by
  unfold loadFileHistory
  split
  · exact ⟨Or.inl rfl, rfl⟩
  · next stored hst =>
      simp only [updateFileHistoryDisplay, filterFilesBySearch_fileHistory]
      split_ifs <;> simp [enableChat, hst]

/-- C1. In every reachable state of the page the history holds at most 10 entries,
and so does the record kept in `localStorage`. -/
theorem history_never_exceeds_ten (h : Host) (s : AppState) (hr : Reachable h s) :
    s.fileHistory.length ≤ 10 ∧ ∀ r, s.storage = some r → r.length ≤ 10 := by
  induction hr with
  | firstVisit s hf hs => simp [hf, hs]
  | laterVisit s t _ hf hs ih => exact ⟨by simp [hf], by rw [hs]; exact ih.2⟩
  | step op s _ ih =>
      cases op with
      | addToFileHistory now ts fn tr =>
          simp only [Op.apply, addToFileHistory_fileHistory, addToFileHistory_storage]
          have : (s.fileHistory.take 9).length ≤ 9 := by simp
          refine ⟨by simp, ?_⟩
          intro r hr
          cases hr
          simp
      | loadFileHistory =>
          obtain ⟨h1, h2⟩ := loadFileHistory_cases h s
          simp only [Op.apply]
          refine ⟨?_, by rw [h2]; exact ih.2⟩
          rcases h1 with h1 | h1
          · rw [h1]; exact ih.1
          · exact ih.2 _ h1
      | selectFileFromHistory file =>
          obtain ⟨h1, h2⟩ := selectFileFromHistory_keeps h file s
          simp only [Op.apply, h1, h2]
          exact ih
      | clearTranscript =>
          simpa [Op.apply, clearTranscript, disableChat] using ih
      | filterFilesBySearch term =>
          simpa [Op.apply] using ih

theorem reachable_afterAdds (n : Nat) : Reachable asciiHost (afterAdds n) := by
  induction n with
  | zero => exact .firstVisit _ rfl rfl
  | succ n ih => exact .step (.addToFileHistory n _ _ _) _ ih

/-- Witness of C1: the state after eleven additions. -/
theorem history_never_exceeds_ten_witness :
    Reachable asciiHost (afterAdds 11) ∧ (afterAdds 11).fileHistory.length ≤ 10 ∧
      ∀ r, (afterAdds 11).storage = some r → r.length ≤ 10 :=
  ⟨reachable_afterAdds 11, history_never_exceeds_ten asciiHost (afterAdds 11) (reachable_afterAdds 11)⟩

/-- C2. `addToFileHistory` puts the new entry first, keeps after it the first
`min |h| 9` entries of the old history in their order, and persists exactly the new
history; on a history of 10 this drops the last (oldest) entry and no other. -/
theorem addToFileHistory_prepends_and_truncates (h : Host) (now : Nat)
    (timestamp filename transcript : Str) (s : AppState) :
    (addToFileHistory h now timestamp filename transcript s).fileHistory =
        (⟨now, filename, transcript, timestamp⟩ : FileHistoryEntry) ::
          s.fileHistory.take (min s.fileHistory.length 9) ∧
      (addToFileHistory h now timestamp filename transcript s).storage =
        some (addToFileHistory h now timestamp filename transcript s).fileHistory ∧
      (s.fileHistory.length = 10 →
        (addToFileHistory h now timestamp filename transcript s).fileHistory =
          (⟨now, filename, transcript, timestamp⟩ : FileHistoryEntry) ::
            s.fileHistory.dropLast) := by
  have htake : s.fileHistory.take (min s.fileHistory.length 9) = s.fileHistory.take 9 := by
    rcases Nat.le_total s.fileHistory.length 9 with hle | hle
    · rw [Nat.min_eq_left hle, List.take_of_length_le hle, List.take_of_length_le (le_refl _)]
    · rw [Nat.min_eq_right hle]
  refine ⟨?_, ?_, ?_⟩
  · rw [addToFileHistory_fileHistory, htake]
  · rw [addToFileHistory_storage, addToFileHistory_fileHistory]
  · intro hlen
    rw [addToFileHistory_fileHistory, List.dropLast_eq_take, hlen]

/-- Witness of C2: an eleventh entry added to a history of ten. -/
theorem addToFileHistory_prepends_and_truncates_witness :
    (afterAdds 10).fileHistory.length = 10 ∧
      (addToFileHistory asciiHost 10 "now".toList "new.wav".toList "text".toList
          (afterAdds 10)).fileHistory =
        (⟨10, "new.wav".toList, "text".toList, "now".toList⟩ : FileHistoryEntry) ::
          (afterAdds 10).fileHistory.dropLast :=
  have hlen : (afterAdds 10).fileHistory.length = 10 := by
    simp [afterAdds, addToFileHistory_fileHistory, emptyState]
  ⟨hlen, (addToFileHistory_prepends_and_truncates asciiHost 10 "now".toList "new.wav".toList
    "text".toList (afterAdds 10)).2.2 hlen⟩

/-- C3, as stated, fails where lower-casing depends on the context.  With the
Final_Sigma rule the term `ΑΣ` lower-cases to `ας` and the name `ΑΣΑ.mp3` to
`ασα.mp3`, so the entry is filtered out and "No matches found" is shown, although
its name contains the term letter for letter. -/
theorem filter_misses_name_containing_term :
    sigmaState.fileHistory.map (·.name) = ["ΑΣΑ.mp3".toList] ∧
      "ΑΣ".toList <:+: "ΑΣΑ.mp3".toList ∧
      sigmaHost.toLowerCase "ΑΣ".toList = "ας".toList ∧
      sigmaHost.toLowerCase "ΑΣΑ.mp3".toList = "ασα.mp3".toList ∧
      (filterFilesBySearch sigmaHost "ΑΣ".toList sigmaState).fileList = .noMatches ∧
      (filterFilesBySearch sigmaHost "ΑΣ".toList sigmaState).fileList.entries ≠
        sigmaState.fileHistory.filter fun f =>
          decide (ContainsIgnoringCase lowerChar "ΑΣ".toList f.name ∨
            ContainsIgnoringCase lowerChar "ΑΣ".toList f.transcript) := by
  refine ⟨rfl, by decide, by decide, by decide, by decide, by decide⟩

/-- C3, amended. On a non-empty history `filterFilesBySearch` renders, for a
non-empty term, exactly the entries for which the lower-cased term is a substring of
the lower-cased name or of the lower-cased transcript, in the order of the history,
and for the empty term the whole history in order.  Where `toLowerCase` maps the term
and the texts of the history character by character, those are exactly the entries
whose name or transcript contains the term as a case-insensitive substring. -/
theorem filterFilesBySearch_renders_matches (h : Host) (term : Str) (s : AppState)
    (hne : s.fileHistory ≠ []) :
    (filterFilesBySearch h term s).fileList.entries =
        (if term = [] then s.fileHistory
         else s.fileHistory.filter fun f =>
          decide (OccursLowerCased h term f.name ∨ OccursLowerCased h term f.transcript)) ∧
      ((filterFilesBySearch h term s).fileList.entries).Sublist s.fileHistory ∧
      ∀ fold : Char → Char, term ≠ [] → h.toLowerCase term = term.map fold →
        (∀ f ∈ s.fileHistory, h.toLowerCase f.name = f.name.map fold ∧
          h.toLowerCase f.transcript = f.transcript.map fold) →
        (filterFilesBySearch h term s).fileList.entries =
          s.fileHistory.filter fun f =>
            decide (ContainsIgnoringCase fold term f.name ∨
              ContainsIgnoringCase fold term f.transcript) := by
  have hfilter : (s.fileHistory.filter fun f =>
        decide (OccursLowerCased h term f.name ∨ OccursLowerCased h term f.transcript)) =
      s.fileHistory.filter (fileMatches h term) := by
    apply List.filter_congr
    intro f _
    rw [Bool.eq_iff_iff]
    simp [fileMatches_iff]
  have hlen : ¬ s.fileHistory.length = 0 := by
    simpa [List.length_eq_zero] using hne
  have key : (filterFilesBySearch h term s).fileList.entries =
      (if term = [] then s.fileHistory
       else s.fileHistory.filter fun f =>
        decide (OccursLowerCased h term f.name ∨ OccursLowerCased h term f.transcript)) := by
    rw [hfilter]
    by_cases ht : term = []
    · subst ht
      simp [filterFilesBySearch, truthy, hlen, FileListView.entries, Function.comp_def]
    · have htr : truthy term = true := by
        cases term with
        | nil => exact absurd rfl ht
        | cons a r => rfl
      simp only [filterFilesBySearch, hlen, htr, if_true, if_false, ht, and_true]
      split_ifs with hz
      · simp only [FileListView.entries]
        exact (List.length_eq_zero.mp hz).symm
      · simp [FileListView.entries, Function.comp_def]
  refine ⟨key, ?_, ?_⟩
  · rw [key]
    split_ifs
    · exact List.Sublist.refl _
    · exact List.filter_sublist _
  · intro fold ht hterm htexts
    rw [key, if_neg ht]
    apply List.filter_congr
    intro f hf
    rw [Bool.eq_iff_iff]
    simp only [decide_eq_true_eq]
    rw [occursLowerCased_charwise h fold term f.name hterm (htexts f hf).1,
      occursLowerCased_charwise h fold term f.transcript hterm (htexts f hf).2]

/-- Witness of C3: searching `hello` in a history of one entry, whose transcript
`Hello world` contains it up to case. -/
theorem filterFilesBySearch_renders_matches_witness :
    (filterFilesBySearch asciiHost "hello".toList oneFileState).fileList.entries =
        oneFileState.fileHistory ∧
      (filterFilesBySearch asciiHost "hello".toList oneFileState).fileList.entries =
        oneFileState.fileHistory.filter fun f =>
          decide (ContainsIgnoringCase Char.toLower "hello".toList f.name ∨
            ContainsIgnoringCase Char.toLower "hello".toList f.transcript) :=
  ⟨by decide,
   (filterFilesBySearch_renders_matches asciiHost "hello".toList oneFileState
      (by decide)).2.2 Char.toLower (by decide) rfl (fun _ _ => ⟨rfl, rfl⟩)⟩

/-- C4. `filterFilesBySearch` has two distinct empty states: an empty history shows
"No files uploaded yet" whatever the term, and a non-empty history with a non-empty
term that no entry contains shows "No matches found", which is neither the other
signal nor the unfiltered list. -/
theorem filterFilesBySearch_empty_states (h : Host) (term : Str) (s : AppState) :
    (s.fileHistory = [] → (filterFilesBySearch h term s).fileList = .noFilesYet) ∧
      (s.fileHistory ≠ [] → term ≠ [] →
        (∀ f ∈ s.fileHistory,
          ¬ OccursLowerCased h term f.name ∧ ¬ OccursLowerCased h term f.transcript) →
        (filterFilesBySearch h term s).fileList = .noMatches ∧
          (filterFilesBySearch h term s).fileList ≠ .noFilesYet ∧
          (filterFilesBySearch h term s).fileList.entries ≠ s.fileHistory) := by
  constructor
  · intro he
    simp [filterFilesBySearch, he]
  · intro hne ht hno
    have hlen : ¬ s.fileHistory.length = 0 := by
      simpa [List.length_eq_zero] using hne
    have htr : truthy term = true := by
      cases term with
      | nil => exact absurd rfl ht
      | cons a r => rfl
    have hnone : s.fileHistory.filter (fileMatches h term) = [] := by
      rw [List.filter_eq_nil_iff]
      intro f hf
      have := hno f hf
      rw [fileMatches_iff]
      tauto
    have heq : (filterFilesBySearch h term s).fileList = .noMatches := by
      simp [filterFilesBySearch, hlen, htr, hnone]
    rw [heq]
    refine ⟨rfl, by simp, ?_⟩
    simpa [FileListView.entries] using hne.symm

/-- Witness of C4: the empty page, and a search for `xyz` in a history of one entry
that does not contain it. -/
theorem filterFilesBySearch_empty_states_witness :
    (filterFilesBySearch asciiHost "xyz".toList emptyState).fileList = .noFilesYet ∧
      (filterFilesBySearch asciiHost "xyz".toList oneFileState).fileList = .noMatches :=
  ⟨(filterFilesBySearch_empty_states asciiHost "xyz".toList emptyState).1 rfl,
   ((filterFilesBySearch_empty_states asciiHost "xyz".toList oneFileState).2
      (by decide) (by decide) (by decide)).1⟩

/-! ### Upload validation and relays -/

/-- C6. `handleFile` starts the upload exactly when the MIME type is one of
`audio/wav`, `audio/mpeg`, `audio/mp3` or the lower-cased name ends with `.wav` or
`.mp3`, and the size is at most 52428800 bytes; otherwise all it does is show an
error status. -/
theorem handleFile_uploads_iff_valid (h : Host) (file : File) :
    ((∃ f, Action.uploadAndTranscribe f ∈ handleFile h file) ↔
        (file.type = "audio/wav".toList ∨ file.type = "audio/mpeg".toList ∨
            file.type = "audio/mp3".toList ∨
            ".wav".toList <:+ h.toLowerCase file.name ∨
            ".mp3".toList <:+ h.toLowerCase file.name) ∧
          file.size ≤ 52428800) ∧
      (¬ ((file.type = "audio/wav".toList ∨ file.type = "audio/mpeg".toList ∨
            file.type = "audio/mp3".toList ∨
            ".wav".toList <:+ h.toLowerCase file.name ∨
            ".mp3".toList <:+ h.toLowerCase file.name) ∧
          file.size ≤ 52428800) →
        ∃ message, handleFile h file = [.showUploadStatus message "error".toList]) := by
  have hvalid : isValidType h file = true ↔
      (file.type = "audio/wav".toList ∨ file.type = "audio/mpeg".toList ∨
        file.type = "audio/mp3".toList ∨
        ".wav".toList <:+ h.toLowerCase file.name ∨
        ".mp3".toList <:+ h.toLowerCase file.name) := by
    simp [isValidType, allowedTypes, endsWith, or_assoc]
  have hsize : maxSize = 52428800 := by decide
  by_cases hv : isValidType h file = true
  · by_cases hs : file.size > maxSize
    · have hcond := hvalid.mp hv
      simp only [handleFile, hv, hs]
      rw [hsize] at hs
      constructor
      · simp; intro _; omega
      · intro _; exact ⟨_, rfl⟩
    · have hcond := hvalid.mp hv
      simp only [handleFile, hv, hs]
      rw [hsize] at hs
      constructor
      · simp only [Bool.not_true, Bool.false_eq_true, if_false]
        constructor
        · intro _; exact ⟨hcond, by omega⟩
        · intro _; exact ⟨file, by simp⟩
      · intro hn; exact absurd ⟨hcond, by omega⟩ hn
  · have hcond : ¬ _ := fun hc => hv (hvalid.mpr hc)
    have hv2 : isValidType h file = false := by simpa using hv
    simp only [handleFile, hv2]
    constructor
    · simp; intro hc; exact absurd hc hcond
    · intro _; exact ⟨_, rfl⟩

/-- Witness of C6: a text file is turned away with an error status. -/
theorem handleFile_uploads_iff_valid_witness :
    ∃ message, handleFile asciiHost ⟨"notes.txt".toList, "text/plain".toList, 10⟩ =
      [.showUploadStatus message "error".toList] :=
  (handleFile_uploads_iff_valid asciiHost ⟨"notes.txt".toList, "text/plain".toList, 10⟩).2
    (by decide)

/-- C7, as stated, fails in the chat relay: an upstream error response without a
message is answered with "Chat service error", which does not contain "failed". -/
theorem chat_generic_message_lacks_failed :
    (chatHandler (fun _ => .error upstream503) ⟨some "hi".toList, none⟩).response.status = 503 ∧
      (chatHandler (fun _ => .error upstream503) ⟨some "hi".toList, none⟩).response.body =
        errorBody (.str "Chat service error".toList) ∧
      ¬ "failed".toList <:+: "Chat service error".toList := by
  refine ⟨rfl, rfl, by decide⟩

/-- C7, amended. Both relays turn a failed upstream call into a body `{error: ..}`:
a timeout (`ECONNABORTED`) gives 408 and a message containing "timeout"; otherwise an
upstream error response gives its own status, with its error message when that is
truthy and else "Transcription failed" (transcription) or "Chat service error"
(chat); any other failure gives 500. -/
theorem relays_convert_upstream_failures (e : RequestError)
    (upT : Str → Except RequestError Json) (file : UploadedFile) (disk : List Str)
    (upC : ChatData → Except RequestError Json) (body : ChatBody)
    (hT : upT file.path = .error e) (hC : ∀ d, upC d = .error e)
    (hm : optTruthy body.message = true) :
    (e.code = some "ECONNABORTED".toList →
        (∃ m, (transcribeHandler upT (some file) disk).response = ⟨408, errorBody (.str m)⟩ ∧
          "timeout".toList <:+: m) ∧
        (∃ m, (chatHandler upC body).response = ⟨408, errorBody (.str m)⟩ ∧
          "timeout".toList <:+: m)) ∧
      (e.code ≠ some "ECONNABORTED".toList → ∀ r, e.response = some r →
        (transcribeHandler upT (some file) disk).response =
          ⟨r.status, errorBody
            (if Json.truthy (optGet (optGet (some r.data) "error".toList) "message".toList)
             then (optGet (optGet (some r.data) "error".toList) "message".toList).getD .null
             else .str "Transcription failed".toList)⟩ ∧
        (chatHandler upC body).response =
          ⟨r.status, errorBody
            (if Json.truthy (optGet (optGet (some r.data) "error".toList) "message".toList)
             then (optGet (optGet (some r.data) "error".toList) "message".toList).getD .null
             else .str "Chat service error".toList)⟩) ∧
      (e.code ≠ some "ECONNABORTED".toList → e.response = none →
        (∃ m, (transcribeHandler upT (some file) disk).response = ⟨500, errorBody (.str m)⟩) ∧
        (∃ m, (chatHandler upC body).response = ⟨500, errorBody (.str m)⟩)) := by
  have hchat : (chatHandler upC body).response = chatCatch e := by
    unfold chatHandler
    cases hb : body.message with
    | none => simp [hb, optTruthy] at hm
    | some m =>
        have : truthy m = true := by simpa [hb, optTruthy] using hm
        simp [this, hC]
  have htr : (transcribeHandler upT (some file) disk).response =
      (transcribeCatch file disk e).1 := by
    simp [transcribeHandler, hT]
  rw [hchat, htr]
  refine ⟨?_, ?_, ?_⟩
  · intro hcode
    simp only [transcribeCatch, chatCatch, hcode, if_true]
    exact ⟨⟨_, rfl, by decide⟩, ⟨_, rfl, by decide⟩⟩
  · intro hcode r hr
    simp only [transcribeCatch, chatCatch, hcode, if_false, hr]
    refine ⟨?_, ?_⟩ <;> first | rfl | trivial
  · intro hcode hr
    simp only [transcribeCatch, chatCatch, hcode, if_false, hr]
    exact ⟨⟨_, rfl⟩, ⟨_, rfl⟩⟩

/-- Witness of C7: an upstream 401 that carries a message, in both relays. -/
theorem relays_convert_upstream_failures_witness :
    (transcribeHandler (fun _ => .error upstream401) (some sampleUpload) []).response =
        ⟨401, errorBody (.str "Access denied".toList)⟩ ∧
      (chatHandler (fun _ => .error upstream401) ⟨some "hi".toList, none⟩).response =
        ⟨401, errorBody (.str "Access denied".toList)⟩ :=
  (relays_convert_upstream_failures upstream401 (fun _ => .error upstream401) sampleUpload []
    (fun _ => .error upstream401) ⟨some "hi".toList, none⟩ rfl (fun _ => rfl) rfl).2.1
    (by decide) ⟨401, _⟩ rfl

/-- C8. A request without its required input is answered 400 and nothing is sent
upstream: no file part on `/api/transcribe`, no or an empty message on `/api/chat`. -/
theorem missing_input_rejected_before_upstream :
    (∀ (h : Host) (now : Nat) (upT : Str → Except RequestError Json) (disk : List Str),
        (postTranscribe h now upT none disk).response =
            ⟨400, errorBody (.str "No audio file uploaded".toList)⟩ ∧
          (postTranscribe h now upT none disk).calls = []) ∧
      (∀ (upC : ChatData → Except RequestError Json) (body : ChatBody),
        (body.message = none ∨ body.message = some []) →
          (chatHandler upC body).response =
              ⟨400, errorBody (.str "No message provided".toList)⟩ ∧
            (chatHandler upC body).calls = []) := by
  constructor
  · intro h now upT disk
    exact ⟨rfl, rfl⟩
  · intro upC body hb
    rcases hb with hb | hb <;> simp [chatHandler, hb, truthy]

/-- Witness of C8: a chat request whose message is the empty string. -/
theorem missing_input_rejected_before_upstream_witness :
    (chatHandler (fun _ => .ok .null) ⟨some [], some "ctx".toList⟩).response =
        ⟨400, errorBody (.str "No message provided".toList)⟩ ∧
      (chatHandler (fun _ => .ok .null) ⟨some [], some "ctx".toList⟩).calls = [] :=
  missing_input_rejected_before_upstream.2 (fun _ => .ok .null) ⟨some [], some "ctx".toList⟩
    (Or.inr rfl)

/-- C9, failing input. An upload whose MIME type and extension are both outside
wav/mp3 is answered by the catch-all branch of the error middleware: status 500,
not 400, whatever its size, and nothing is stored or sent upstream. -/
theorem wrong_type_upload_answered_500 (now size : Nat)
    (upT : Str → Except RequestError Json) (disk : List Str) :
    (postTranscribe asciiHost now upT (some ⟨"notes.txt".toList, "text/plain".toList, size⟩)
        disk).response =
      ⟨500, errorBody (.str "Only .wav and .mp3 files are allowed".toList)⟩ ∧
    (postTranscribe asciiHost now upT (some ⟨"notes.txt".toList, "text/plain".toList, size⟩)
        disk).calls = [] := by
  have hf : fileFilter asciiHost ⟨"notes.txt".toList, "text/plain".toList, size⟩ =
      .error (.error "Only .wav and .mp3 files are allowed".toList) := by
    have : (allowedTypes.contains "text/plain".toList ||
        endsWith (asciiHost.toLowerCase "notes.txt".toList) ".wav".toList ||
        endsWith (asciiHost.toLowerCase "notes.txt".toList) ".mp3".toList) = false := by
      decide
    simp only [fileFilter, this]
    rfl
  simp only [postTranscribe, uploadSingle, hf]
  refine ⟨?_, ?_⟩ <;> first | rfl | trivial

/-- The half of C9 the server does meet: an upload of an accepted type that is
longer than the limit is answered 400. -/
theorem oversize_upload_answered_400 (h : Host) (now : Nat)
    (upT : Str → Except RequestError Json) (disk : List Str) (part : IncomingFile)
    (hok : fileFilter h part = .ok true) (hsize : part.size > 52428800) :
    (postTranscribe h now upT (some part) disk).response =
      ⟨400, errorBody (.str "File too large. Maximum size is 50MB.".toList)⟩ := by
  have hlim : part.size > fileSizeLimit := by
    have : fileSizeLimit = 52428800 := by decide
    omega
  simp [postTranscribe, uploadSingle, hok, hlim, errorMiddleware]

/-- C10. For a non-empty message the chat relay sends upstream one request with
exactly two messages, the system prompt and then the user message unchanged, with
`max_tokens` 1000 and `temperature` 0.7; a non-empty context occurs verbatim in the
system prompt, and without a context (absent or empty) the system prompt is the fixed
instruction to upload and transcribe audio first. -/
theorem chat_request_shape (upC : ChatData → Except RequestError Json) (body : ChatBody)
    (message : Str) (hm : body.message = some message) (hne : message ≠ []) :
    (chatHandler upC body).calls =
        [{ messages := [⟨"system".toList, systemPrompt body.context⟩, ⟨"user".toList, message⟩]
           max_tokens := 1000
           temperature := 7 / 10 }] ∧
      (∀ c, body.context = some c → c ≠ [] → c <:+: systemPrompt body.context) ∧
      ((body.context = none ∨ body.context = some []) →
        systemPrompt body.context = noContextPrompt) ∧
      "ask them to upload and transcribe an audio file first".toList <:+: noContextPrompt := by
  have htr : truthy message = true := by
    cases message with
    | nil => exact absurd rfl hne
    | cons a r => rfl
  have htemp : (0.7 : ℚ) = 7 / 10 := by norm_num
  refine ⟨?_, ?_, ?_,
    ⟨("You are a helpful AI assistant. The user has not provided any transcribed audio " ++
        "content yet. Please ").toList, " before asking questions.".toList, rfl⟩⟩
  · simp only [chatHandler, hm, htr, Bool.not_true, Bool.false_eq_true, if_false, htemp]
    split
    · rfl
    · split <;> rfl
  · intro c hc hcne
    have : truthy c = true := by
      cases c with
      | nil => exact absurd rfl hcne
      | cons a r => rfl
    simp only [hc, systemPrompt, this, if_true]
    exact ⟨contextPromptHead, contextPromptTail, rfl⟩
  · rintro (hc | hc) <;> simp [hc, systemPrompt, truthy]

/-- Witness of C10: a question asked with a transcript as context. -/
theorem chat_request_shape_witness :
    (chatHandler (fun _ => .error upstream503)
        ⟨some "What was discussed?".toList, some "File: meeting.mp3\nHello world".toList⟩).calls =
      [{ messages := [⟨"system".toList,
            systemPrompt (some "File: meeting.mp3\nHello world".toList)⟩,
            ⟨"user".toList, "What was discussed?".toList⟩]
         max_tokens := 1000
         temperature := 7 / 10 }] :=
  (chat_request_shape (fun _ => .error upstream503)
    ⟨some "What was discussed?".toList, some "File: meeting.mp3\nHello world".toList⟩
    "What was discussed?".toList rfl (by decide)).1

/-! ### Search highlighting -/

theorem create_escapePattern :
    RegExp.create escapePattern false = .ok ⟨.seq (.cls false specialChars) .empty, 0, false⟩ := by
  rfl

theorem getSubstitution_escape (a : Char) (before after : Str) :
    getSubstitution [a] before after [] 0 escapeTemplate = ['\\', a] := by
  rfl

theorem getSubstitution_highlight (m before after : Str) :
    getSubstitution m before after [(1, m)] 1 highlightTemplate = markOpen ++ m ++ markClose := by
  rfl

theorem matchAt_escaper (canon : Char → Char) (before rest : Str) :
    RegExp.matchAt canon ⟨.seq (.cls false specialChars) .empty, 0, false⟩ before rest =
      match rest with
      | [] => none
      | a :: r => if a ∈ specialChars then some ⟨before ++ [a], r, []⟩ else none := by
  cases rest with
  | nil => simp [RegExp.matchAt, Node.matcher]
  | cons a r =>
      by_cases ha : a ∈ specialChars
      · have : (specialChars.any fun m => decide (m = a)) = true := by
          simpa using ha
        simp [RegExp.matchAt, Node.matcher, this, ha]
      · have : (specialChars.any fun m => decide (m = a)) = false := by
          rw [List.any_eq_false]
          intro x hx hxa
          have hxa2 : x = a := by simpa using hxa
          exact ha (hxa2 ▸ hx)
        simp [RegExp.matchAt, Node.matcher, this, ha]

theorem replaceLoop_escaper (canon : Char → Char) (rest : Str) :
    ∀ (fuel : Nat) (before : Str), rest.length < fuel →
      replaceLoop canon ⟨.seq (.cls false specialChars) .empty, 0, false⟩ escapeTemplate
        fuel before rest = escapeLiteral rest := by
  induction rest with
  | nil =>
      intro fuel before hf
      cases fuel with
      | zero => simp at hf
      | succ f => simp [replaceLoop, matchAt_escaper, escapeLiteral]
  | cons a r ih =>
      intro fuel before hf
      cases fuel with
      | zero => simp at hf
      | succ f =>
          have hf2 : r.length < f := by simpa using hf
          by_cases ha : a ∈ specialChars
          · simp [replaceLoop, matchAt_escaper, escapeLiteral, ha, getSubstitution_escape,
              ih f _ hf2]
          · simp [replaceLoop, matchAt_escaper, escapeLiteral, ha, ih f _ hf2]

theorem escapeSearchTerm_eq (h : Host) (term : Str) :
    escapeSearchTerm h term = .ok (escapeLiteral term) := by
  simp only [escapeSearchTerm, create_escapePattern, replaceGlobal]
  rw [replaceLoop_escaper _ _ _ _ (Nat.lt_succ_self _)]

theorem special_not_alnum : ∀ a ∈ specialChars, isAlnum a = false := by decide

theorem quantify_none (atom : Node) (a : Char) (r : Str)
    (h1 : a ≠ '*') (h2 : a ≠ '+') (h3 : a ≠ '?') (h4 : a ≠ '{') :
    quantify atom (a :: r) = .ok (atom, a :: r) := by
  have hb : startsBrace (a :: r) = false := by
    unfold startsBrace
    split
    · next heq => cases heq; exact absurd rfl h4
    · rfl
  have hq : parseQuantifier (a :: r) = none := by
    unfold parseQuantifier
    split
    · next heq => cases heq; exact absurd rfl h1
    · next heq => cases heq; exact absurd rfl h2
    · next heq => cases heq; exact absurd rfl h3
    · rfl
  simp [quantify, hb, hq]

theorem quantify_escaped (atom : Node) (t rest : Str) :
    quantify atom (escapeLiteral t ++ ')' :: rest) =
      .ok (atom, escapeLiteral t ++ ')' :: rest) := by
  cases t with
  | nil => exact quantify_none atom _ _ (by decide) (by decide) (by decide) (by decide)
  | cons a r =>
      by_cases ha : a ∈ specialChars
      · simp only [escapeLiteral, ha, if_true, List.cons_append]
        exact quantify_none atom _ _ (by decide) (by decide) (by decide) (by decide)
      · simp only [escapeLiteral, ha, if_false, List.cons_append]
        have hne : ∀ c ∈ specialChars, a ≠ c := fun c hc h => ha (h ▸ hc)
        exact quantify_none atom _ _ (hne _ (by decide)) (hne _ (by decide))
          (hne _ (by decide)) (hne _ (by decide))

theorem nextStep_escaped (a : Char) (t rest : Str) (ha : a ∈ specialChars) :
    nextStep '\\' (a :: (escapeLiteral t ++ ')' :: rest)) =
      .term (.char a) (escapeLiteral t ++ ')' :: rest) := by
  have h : nextStep '\\' (a :: (escapeLiteral t ++ ')' :: rest)) =
      if isAlnum a then .fail .outsideFragment
      else
        match quantify (.char a) (escapeLiteral t ++ ')' :: rest) with
        | .error err => .fail err
        | .ok (t, rest1) => .term t rest1 := rfl
  rw [h, special_not_alnum a ha, quantify_escaped]
  rfl

theorem nextStep_plain (a : Char) (t rest : Str) (ha : a ∉ specialChars) :
    nextStep a (escapeLiteral t ++ ')' :: rest) =
      .term (.char a) (escapeLiteral t ++ ')' :: rest) := by
  have hne : ∀ c ∈ specialChars, a ≠ c := fun c hc h => ha (h ▸ hc)
  have h1 := hne ')' (by decide)
  have h2 := hne '|' (by decide)
  have h3 := hne '*' (by decide)
  have h4 := hne '+' (by decide)
  have h5 := hne '?' (by decide)
  have h6 := hne '^' (by decide)
  have h7 := hne '$' (by decide)
  have h8 := hne '(' (by decide)
  have h9 := hne '[' (by decide)
  have h10 := hne '\\' (by decide)
  have h11 := hne '{' (by decide)
  have h12 := hne '.' (by decide)
  unfold nextStep
  simp only [h1, h2, h3, h4, h5, h6, h7, h8, h9, h10, h11, h12, if_false, or_self,
    false_and, quantify_escaped]

theorem parseSeq_term (fuel n : Nat) (c : Char) (r : Str) (alts cur : List Node)
    (t : Node) (rest : Str) (hs : nextStep c r = .term t rest) :
    parseSeq (fuel + 1) (c :: r) n alts cur = parseSeq fuel rest n alts (cur ++ [t]) := by
  rw [parseSeq, hs]

theorem parseSeq_escaped (t : Str) :
    ∀ (fuel n : Nat) (alts cur : List Node) (rest : Str),
      parseSeq (t.length + fuel) (escapeLiteral t ++ ')' :: rest) n alts cur =
        parseSeq fuel (')' :: rest) n alts (cur ++ t.map .char) := by
  induction t with
  | nil => intro fuel n alts cur rest; simp [escapeLiteral]
  | cons a r ih =>
      intro fuel n alts cur rest
      have hlen : (a :: r).length + fuel = (r.length + fuel) + 1 := by
        simp only [List.length_cons]; omega
      rw [hlen]
      by_cases ha : a ∈ specialChars
      · simp only [escapeLiteral, ha, if_true, List.cons_append]
        rw [parseSeq_term _ _ _ _ _ _ _ _ (nextStep_escaped a r rest ha), ih]
        simp
      · simp only [escapeLiteral, ha, if_false, List.cons_append]
        rw [parseSeq_term _ _ _ _ _ _ _ _ (nextStep_plain a r rest ha), ih]
        simp

theorem escapeLiteral_length (t : Str) : t.length ≤ (escapeLiteral t).length := by
  induction t with
  | nil => simp [escapeLiteral]
  | cons a r ih =>
      simp only [escapeLiteral]
      split_ifs <;> simp <;> omega

theorem nextStep_open (R : Str) :
    nextStep '(' R =
      match R with
      | '?' :: ':' :: r1 => .openGroup false r1
      | '?' :: _ => .fail .outsideFragment
      | _ => .openGroup true R := by
  rfl

theorem escapeLiteral_head (t rest : Str) :
    nextStep '(' (escapeLiteral t ++ ')' :: rest) =
      .openGroup true (escapeLiteral t ++ ')' :: rest) := by
  cases t with
  | nil => rfl
  | cons a r =>
      by_cases ha : a ∈ specialChars
      · simp only [escapeLiteral, ha, if_true, List.cons_append]
        rfl
      · have hq : a ≠ '?' := fun h => ha (h ▸ by decide)
        simp only [escapeLiteral, ha, if_false, List.cons_append]
        rw [nextStep_open]
        split
        · next heq => exact absurd (List.cons.inj heq).1 hq
        · next heq => exact absurd (List.cons.inj heq).1 hq
        · rfl

theorem create_escaped (t : Str) :
    RegExp.create ("(".toList ++ escapeLiteral t ++ ")".toList) true =
      .ok ⟨.seq (.group 1 (mkSeq (t.map .char))) .empty, 1, true⟩ := by
  have hshape : "(".toList ++ escapeLiteral t ++ ")".toList =
      '(' :: (escapeLiteral t ++ ')' :: []) := by
    simp
  obtain ⟨d, hd⟩ : ∃ d, (escapeLiteral t).length = t.length + d :=
    ⟨(escapeLiteral t).length - t.length, by have := escapeLiteral_length t; omega⟩
  have hfuel : ("(".toList ++ escapeLiteral t ++ ")".toList).length + 1 =
      (t.length + (d + 1 + 1)) + 1 := by
    simp [hd]; omega
  have hclose : ∀ cur, parseSeq (d + 1 + 1) (')' :: []) 1 [] cur =
      .ok (mkAlt [] (mkSeq cur), ')' :: [], 1) := by
    intro cur
    rw [parseSeq]
    rfl
  have hq : ∀ atom, quantify atom [] = .ok (atom, []) := fun _ => rfl
  have hend : ∀ cur, parseSeq (t.length + (d + 1 + 1)) [] 1 [] cur =
      .ok (mkAlt [] (mkSeq cur), [], 1) := by
    intro cur
    have : t.length + (d + 1 + 1) = (t.length + (d + 1)) + 1 := by omega
    rw [this, parseSeq]
  unfold RegExp.create
  rw [hfuel, hshape]
  rw [parseSeq, escapeLiteral_head]
  simp only [if_true, parseSeq_escaped, hclose, hq, hend]
  rfl

theorem occursAt_nil (canon : Char → Char) (text : Str) : occursAt canon [] text = true := by
  simp [occursAt]

theorem occursAt_cons_nil (canon : Char → Char) (a : Char) (t : Str) :
    occursAt canon (a :: t) [] = false := by
  simp [occursAt]

theorem occursAt_cons_cons (canon : Char → Char) (a x : Char) (t r : Str) :
    occursAt canon (a :: t) (x :: r) = (decide (canon x = canon a) && occursAt canon t r) := by
  rw [Bool.eq_iff_iff]
  simp only [occursAt, List.length_cons, List.take_succ_cons, List.map_cons, List.cons.injEq,
    decide_eq_true_eq, Bool.and_eq_true, Nat.add_le_add_iff_right]
  tauto

theorem matcher_literal (canon : Char → Char) (t : Str) :
    ∀ (b rest : Str) (caps : List (Nat × Str)) (c : Cont),
      (mkSeq (t.map .char)).matcher canon ⟨b, rest, caps⟩ c =
        if occursAt canon t rest then
          c ⟨b ++ rest.take t.length, rest.drop t.length, caps⟩
        else none := by
  induction t with
  | nil =>
      intro b rest caps c
      simp [mkSeq, Node.matcher, occursAt_nil]
  | cons a t ih =>
      intro b rest caps c
      cases rest with
      | nil => simp [mkSeq, Node.matcher, occursAt_cons_nil]
      | cons x r =>
          simp only [List.map_cons, mkSeq, Node.matcher, occursAt_cons_cons, ih]
          by_cases hx : canon x = canon a
          · simp [hx]
          · simp [hx]

theorem matchAt_literal (canon : Char → Char) (t before rest : Str) :
    RegExp.matchAt canon ⟨.seq (.group 1 (mkSeq (t.map .char))) .empty, 1, true⟩ before rest =
      if occursAt canon t rest then
        some ⟨before ++ rest.take t.length, rest.drop t.length, [(1, rest.take t.length)]⟩
      else none := by
  simp only [RegExp.matchAt, Node.matcher, if_true, matcher_literal]
  split_ifs
  · simp
  · rfl

theorem occursAt_length (canon : Char → Char) (t rest : Str)
    (h : occursAt canon t rest = true) : t.length ≤ rest.length := by
  simp only [occursAt, decide_eq_true_eq] at h
  exact h.1

theorem replaceLoop_literal (canon : Char → Char) (t : Str) (ht : t ≠ []) :
    ∀ (k fuel : Nat) (before rest : Str), rest.length ≤ k → rest.length < fuel →
      replaceLoop canon ⟨.seq (.group 1 (mkSeq (t.map .char))) .empty, 1, true⟩
        highlightTemplate fuel before rest = wrapFrom canon t k rest := by
  have htlen : 0 < t.length := List.length_pos.mpr ht
  have hempty : occursAt canon t [] = false := by
    cases t with
    | nil => exact absurd rfl ht
    | cons a t => exact occursAt_cons_nil canon a t
  intro k
  induction k with
  | zero =>
      intro fuel before rest hk hf
      have hr : rest = [] := List.length_eq_zero.mp (Nat.le_zero.mp hk)
      subst hr
      cases fuel with
      | zero => simp at hf
      | succ f =>
          simp only [replaceLoop, matchAt_literal, hempty]
          rfl
  | succ k ih =>
      intro fuel before rest hk hf
      cases fuel with
      | zero => simp at hf
      | succ f =>
          cases rest with
          | nil =>
              simp only [replaceLoop, matchAt_literal, hempty]
              rfl
          | cons x r =>
              have hk2 : r.length ≤ k := by simpa using hk
              have hf2 : r.length < f := by simpa using hf
              by_cases ho : occursAt canon t (x :: r) = true
              · have hle := occursAt_length canon t (x :: r) ho
                have hne : ((x :: r).take t.length).isEmpty = false := by
                  cases t with
                  | nil => exact absurd rfl ht
                  | cons a t => rfl
                have hdrop : ((x :: r).drop t.length).length ≤ k := by
                  simp only [List.length_drop, List.length_cons] at hk ⊢
                  omega
                have hdrop2 : ((x :: r).drop t.length).length < f := by
                  simp only [List.length_drop, List.length_cons] at hf ⊢
                  omega
                simp only [replaceLoop, matchAt_literal, ho, if_true, wrapFrom,
                  List.drop_left, hne, getSubstitution_highlight,
                  ih f _ _ hdrop hdrop2]
                simp
              · have ho2 : occursAt canon t (x :: r) = false := by simpa using ho
                simp only [replaceLoop, matchAt_literal, ho2, wrapFrom, ih f _ _ hk2 hf2]
                simp

theorem highlightedText_eq (h : Host) (term transcript : Str) (ht : term ≠ []) :
    highlightedText h term transcript = .ok (wrapOccurrences h.canonicalize term transcript) := by
  simp only [highlightedText, escapeSearchTerm_eq, create_escaped, replaceGlobal,
    wrapOccurrences]
  rw [replaceLoop_literal h.canonicalize term ht _ _ _ _ (le_refl _) (Nat.lt_succ_self _)]

theorem unescaped_paren_is_syntax_error :
    RegExp.create ("(".toList ++ "(".toList ++ ")".toList) true = .error .syntaxError := by
  rfl

theorem unescaped_dot_matches_other_text :
    (RegExp.create ("(".toList ++ "a.b*c".toList ++ ")".toList) true).map
        (fun re => replaceGlobal asciiHost.canonicalize re "a.b*c axbbc".toList "[$1]".toList) =
      .ok "a.b*c [axbbc]".toList := by
  rfl

/-- The scan cuts the text into pieces, copies the unmarked ones and wraps the marked
ones, and every marked piece is the term up to case. -/
theorem wrapFrom_decomposes (canon : Char → Char) (term : Str) :
    ∀ (n : Nat) (text : Str), ∃ pieces : List (Bool × Str),
      (pieces.map Prod.snd).flatten = text ∧
      (pieces.map renderPiece).flatten = wrapFrom canon term n text ∧
      ∀ p ∈ pieces, p.1 = true →
        p.2.length = term.length ∧ p.2.map canon = term.map canon := by
  intro n
  induction n with
  | zero =>
      intro text
      exact ⟨[(false, text)], by simp, by simp [renderPiece, wrapFrom], by simp⟩
  | succ n ih =>
      intro text
      cases text with
      | nil => exact ⟨[], by simp, by simp [wrapFrom], by simp⟩
      | cons a r =>
          by_cases ho : occursAt canon term (a :: r) = true
          · obtain ⟨ps, h1, h2, h3⟩ := ih ((a :: r).drop term.length)
            have hocc := ho
            simp only [occursAt, decide_eq_true_eq] at hocc
            refine ⟨(true, (a :: r).take term.length) :: ps, ?_, ?_, ?_⟩
            · simp only [List.map_cons, List.flatten_cons, h1, List.take_append_drop]
            · simp only [List.map_cons, List.flatten_cons, h2, renderPiece, if_true, wrapFrom, ho,
                List.append_assoc]
            · intro p hp hmark
              rcases List.mem_cons.mp hp with hp | hp
              · subst hp
                exact ⟨by simp only [List.length_take]; omega, hocc.2⟩
              · exact h3 p hp hmark
          · obtain ⟨ps, h1, h2, h3⟩ := ih r
            have ho2 : occursAt canon term (a :: r) = false := by simpa using ho
            refine ⟨(false, [a]) :: ps, ?_, ?_, ?_⟩
            · simp [h1]
            · simp [h2, renderPiece, wrapFrom, ho2]
            · intro p hp hmark
              rcases List.mem_cons.mp hp with hp | hp
              · subst hp; simp at hmark
              · exact h3 p hp hmark

/-- C5. For a non-empty term and a non-empty transcript `highlightSearchInTranscript`
does not throw.  The escaping step puts a backslash before each special character,
the pattern built from it compiles, and at any position it matches exactly when the
next `|term|` characters are the term up to case, capturing those characters.  The
text written to the page is the transcript with each such occurrence, scanned from
left to right, wrapped in the marker and every other character unchanged. -/
theorem highlight_wraps_literal_occurrences (h : Host) (term : Str) (s : AppState)
    (hterm : term ≠ []) (htr : s.currentTranscript ≠ []) :
    highlightSearchInTranscript h term s =
        .ok { s with
              transcriptContent :=
                .html (wrapOccurrences h.canonicalize term s.currentTranscript) } ∧
      escapeSearchTerm h term = .ok (escapeLiteral term) ∧
      ∃ re, RegExp.create ("(".toList ++ escapeLiteral term ++ ")".toList) true = .ok re ∧
        ∀ before rest,
          re.matchAt h.canonicalize before rest =
            if occursAt h.canonicalize term rest then
              some ⟨before ++ rest.take term.length, rest.drop term.length,
                [(1, rest.take term.length)]⟩
            else none := by
  refine ⟨?_, escapeSearchTerm_eq h term, _, create_escaped term, ?_⟩
  · have h1 : truthy s.currentTranscript = true := by
      cases hc : s.currentTranscript with
      | nil => exact absurd hc htr
      | cons a r => rfl
    have h2 : truthy term = true := by
      cases term with
      | nil => exact absurd rfl hterm
      | cons a r => rfl
    simp [highlightSearchInTranscript, h1, h2, highlightedText_eq h term _ hterm]
  · intro before rest
    exact matchAt_literal h.canonicalize term before rest

/-- Witness of C5: the term `a.b*c` is found as a literal, whatever its case, and
`axbbc` is left alone. -/
theorem highlight_wraps_literal_occurrences_witness :
    highlightSearchInTranscript asciiHost "a.b*c".toList transcriptState =
      .ok { transcriptState with
            transcriptContent :=
              .html "xx <span class=\"search-highlight\">A.B*C</span> axbbc".toList } :=
  (highlight_wraps_literal_occurrences asciiHost "a.b*c".toList transcriptState
    (by decide) (by decide)).1.trans (by rfl)

/-! ### Chat input and temporary files -/

theorem arrayJoin_eq_intercalate (separator : Str) (xs : List Str) :
    arrayJoin separator xs = separator.intercalate xs := by
  induction xs with
  | nil => rfl
  | cons x r ih =>
      cases r with
      | nil => simp [arrayJoin, List.intercalate]
      | cons y r =>
          rw [arrayJoin, ih]
          simp [List.intercalate]

theorem arrayJoin_fileContext (history : List FileHistoryEntry) :
    arrayJoin "\n\n".toList (history.map fileContext) = historyContext history := by
  rw [arrayJoin_eq_intercalate]
  rfl

theorem arrayJoin_fileContext_truthy (history : List FileHistoryEntry) (hne : history ≠ []) :
    truthy (arrayJoin "\n\n".toList (history.map fileContext)) = true := by
  cases history with
  | nil => exact absurd rfl hne
  | cons f r =>
      cases r with
      | nil => rfl
      | cons g r => rfl

theorem sendMessage_requests (reply : ChatRequest → ChatReply) (s : AppState) :
    (sendMessage reply s).requests =
      if !truthy (trim s.chatInputValue) ||
          !(truthy s.currentTranscript || decide (s.fileHistory.length > 0)) then []
      else
        [⟨trim s.chatInputValue,
          if truthy (arrayJoin "\n\n".toList (s.fileHistory.map fileContext)) then
            arrayJoin "\n\n".toList (s.fileHistory.map fileContext)
          else s.currentTranscript⟩] := by
  simp only [sendMessage]
  split_ifs
  · rfl
  · split <;> rfl
  · split <;> rfl

/-- C11. Whenever `sendMessage` sends a request, its context is the concatenation
over all history entries, in order, of `File: name`, a newline and the transcript,
separated by blank lines, when the history is not empty, and the current transcript
when it is. -/
theorem sendMessage_context (reply : ChatRequest → ChatReply) (s : AppState)
    (request : ChatRequest) (hsent : request ∈ (sendMessage reply s).requests) :
    (s.fileHistory ≠ [] → request.context = historyContext s.fileHistory) ∧
      (s.fileHistory = [] → request.context = s.currentTranscript) := by
  rw [sendMessage_requests] at hsent
  split_ifs at hsent with hguard htr
  · simp at hsent
  · have hreq := List.mem_singleton.mp hsent
    subst hreq
    constructor
    · intro _
      exact arrayJoin_fileContext _
    · intro he
      rw [he] at htr
      simp [arrayJoin, truthy] at htr
  · have hreq := List.mem_singleton.mp hsent
    subst hreq
    constructor
    · intro hne
      exact absurd (arrayJoin_fileContext_truthy _ hne) htr
    · intro _
      rfl

/-- Witness of C11: a question asked with one file in the history. -/
theorem sendMessage_context_witness :
    (⟨"What was discussed?".toList, "File: Meeting.mp3\nHello world".toList⟩ : ChatRequest) ∈
        (sendMessage (fun _ => .ok "A greeting.".toList) askingState).requests ∧
      (⟨"What was discussed?".toList, "File: Meeting.mp3\nHello world".toList⟩ :
          ChatRequest).context = historyContext askingState.fileHistory :=
  have hsent : (⟨"What was discussed?".toList, "File: Meeting.mp3\nHello world".toList⟩ :
      ChatRequest) ∈ (sendMessage (fun _ => .ok "A greeting.".toList) askingState).requests := by
    decide
  ⟨hsent, (sendMessage_context (fun _ => .ok "A greeting.".toList) askingState _ hsent).1
    (by decide)⟩

theorem transcribeCatch_disk (f : UploadedFile) (disk : List Str) (e : RequestError) :
    (transcribeCatch f disk e).2 = disk.filter (· ≠ f.path) := by
  have hd : (if disk.contains f.path then disk.filter (· ≠ f.path) else disk) =
      disk.filter (· ≠ f.path) := by
    split_ifs with hc
    · rfl
    · symm
      rw [List.filter_eq_self]
      intro a ha
      have hnot : f.path ∉ disk := by simpa using hc
      have hne : a ≠ f.path := fun h => hnot (h ▸ ha)
      simpa using hne
  unfold transcribeCatch
  simp only [hd]
  split_ifs
  · rfl
  · split <;> rfl

theorem transcribeHandler_disk (upstream : Str → Except RequestError Json)
    (f : UploadedFile) (disk : List Str) :
    (transcribeHandler upstream (some f) disk).disk = disk.filter (· ≠ f.path) := by
  simp only [transcribeHandler]
  split
  · exact transcribeCatch_disk f disk _
  · split
    · exact transcribeCatch_disk f disk _
    · next disk1 hu =>
        unfold unlinkSync at hu
        split_ifs at hu
        cases hu
        rfl

/-- C12. Whatever the upstream call does (success, timeout, error response, any
other failure), the file multer stored for the request is no longer on disk when
the transcription relay has answered, and no other file is touched. -/
theorem temp_file_removed_on_every_exit (upstream : Str → Except RequestError Json) :
    (∀ (f : UploadedFile) (disk : List Str), f.path ∈ disk →
        f.path ∉ (transcribeHandler upstream (some f) disk).disk ∧
          ∀ p, p ≠ f.path →
            (p ∈ (transcribeHandler upstream (some f) disk).disk ↔ p ∈ disk)) ∧
      (∀ (h : Host) (now : Nat) (part : IncomingFile) (disk : List Str),
        fileFilter h part = .ok true → part.size ≤ fileSizeLimit →
          "uploads/".toList ++ (Nat.repr now).toList ++ "-".toList ++ part.originalname ∉
            (postTranscribe h now upstream (some part) disk).disk) := by
  constructor
  · intro f disk _
    rw [transcribeHandler_disk]
    constructor
    · simp
    · intro p hp
      simp [hp]
  · intro h now part disk hok hsize
    have hs : ¬ part.size > fileSizeLimit := by omega
    simp only [postTranscribe, uploadSingle, hok, hs, if_false, transcribeHandler_disk]
    simp

/-- Witness of C12: the stored upload is gone after a success, a timeout, an error
response and a failure without response. -/
theorem temp_file_removed_on_every_exit_witness :
    sampleUpload.path ∉
        (transcribeHandler (fun _ => .ok (.str "Hello world".toList)) (some sampleUpload)
          [sampleUpload.path]).disk ∧
      sampleUpload.path ∉
        (transcribeHandler (fun _ => .error upstreamTimeout) (some sampleUpload)
          [sampleUpload.path]).disk ∧
      sampleUpload.path ∉
        (transcribeHandler (fun _ => .error upstream401) (some sampleUpload)
          [sampleUpload.path]).disk ∧
      sampleUpload.path ∉
        (transcribeHandler (fun _ => .error upstreamReset) (some sampleUpload)
          [sampleUpload.path]).disk :=
  ⟨((temp_file_removed_on_every_exit _).1 sampleUpload [sampleUpload.path] (by decide)).1,
   ((temp_file_removed_on_every_exit _).1 sampleUpload [sampleUpload.path] (by decide)).1,
   ((temp_file_removed_on_every_exit _).1 sampleUpload [sampleUpload.path] (by decide)).1,
   ((temp_file_removed_on_every_exit _).1 sampleUpload [sampleUpload.path] (by decide)).1⟩

/-- C13. `sendMessage` sends a request to `/api/chat` only when the current transcript
or the history is non-empty; without any transcript it sends nothing and leaves the
page, the conversation included, as it was, whatever the input text. -/
theorem sendMessage_needs_transcript (reply : ChatRequest → ChatReply) (s : AppState) :
    ((sendMessage reply s).requests ≠ [] →
        s.currentTranscript ≠ [] ∨ s.fileHistory ≠ []) ∧
      (s.currentTranscript = [] → s.fileHistory = [] →
        (sendMessage reply s).requests = [] ∧
          (sendMessage reply s).state.chatMessages = s.chatMessages ∧
          (sendMessage reply s).state = s) := by
  have key : s.currentTranscript = [] → s.fileHistory = [] →
      sendMessage reply s = ⟨s, []⟩ := by
    intro hc hf
    simp [sendMessage, hc, hf, truthy]
  constructor
  · intro hsent
    by_contra hno
    rw [not_or, not_not, not_not] at hno
    exact hsent (by rw [key hno.1 hno.2])
  · intro hc hf
    rw [key hc hf]
    exact ⟨rfl, rfl, rfl⟩

/-- Witness of C13: a question typed before anything was transcribed is not sent. -/
theorem sendMessage_needs_transcript_witness :
    (sendMessage (fun _ => .ok "A greeting.".toList) askingTooEarly).requests = [] ∧
      (sendMessage (fun _ => .ok "A greeting.".toList) askingTooEarly).state.chatMessages =
        askingTooEarly.chatMessages ∧
      (sendMessage (fun _ => .ok "A greeting.".toList) askingTooEarly).state = askingTooEarly :=
  (sendMessage_needs_transcript (fun _ => .ok "A greeting.".toList) askingTooEarly).2 rfl rfl

end SpeechRag
